import Mathlib

/-!
Verification development for the formbot scraper core
(`packages/scraper/app/services/task_executor.py`,
`packages/scraper/app/services/vnc_manager.py`,
`packages/scraper/app/api/editing.py`).

The Python code is shallowly embedded: pure functions become Lean
functions, the stateful session pools become explicit state passing,
and the executor's control flow (try/except/finally, early returns)
becomes a total function from an environment of per-step outcomes to
a result together with a trace of observable effects.
-/

namespace Formbot

/-! ### Data model: FormDefinition (app/models/form_definition.py)

`id` models the record's UUID primary key: an abstract identifier
carrying a linear order (standing for the lexicographic order on
`str(uuid)` used by `_step_sort_key`).  `step_order` is a database
integer.  Only the columns read by `TaskExecutor` are embedded. -/

structure FormDefinition where
  id : Nat
  step_order : Int
  depends_on_step_order : Option Int
  page_url : String
  form_type : String
  form_selector : Option String
  submit_selector : String
  human_breakpoint : Bool
deriving DecidableEq, Repr

/-- `TaskExecutor._step_sort_key`: `(form_def.step_order, str(form_def.id))`. -/
def stepSortKey (d : FormDefinition) : Int × Nat :=
  (d.step_order, d.id)

/-- Python tuple comparison on `_step_sort_key` (lexicographic). -/
def keyLE (a b : FormDefinition) : Prop :=
  a.step_order < b.step_order ∨ (a.step_order = b.step_order ∧ a.id ≤ b.id)

instance : DecidableRel keyLE := fun a b => by
  unfold keyLE; infer_instance

instance : IsTotal FormDefinition keyLE := by
  constructor
  intro a b
  unfold keyLE
  rcases lt_trichotomy a.step_order b.step_order with h | h | h
  · exact Or.inl (Or.inl h)
  · rcases Nat.le_total a.id b.id with h2 | h2
    · exact Or.inl (Or.inr ⟨h, h2⟩)
    · exact Or.inr (Or.inr ⟨h.symm, h2⟩)
  · exact Or.inr (Or.inl h)

instance : IsTrans FormDefinition keyLE := by
  constructor
  intro a b c hab hbc
  unfold keyLE at *
  rcases hab with h1 | ⟨h1, h1id⟩ <;> rcases hbc with h2 | ⟨h2, h2id⟩
  · exact Or.inl (h1.trans h2)
  · exact Or.inl (h2 ▸ h1)
  · exact Or.inl (h1 ▸ h2)
  · exact Or.inr ⟨h1.trans h2, h1id.trans h2id⟩

/-- Python's `sorted(form_defs, key=self._step_sort_key)`: a stable sort
by `(step_order, id)`.  Insertion sort is stable, so it computes the same
list as CPython's stable sort. -/
def sortByStepKey (defs : List FormDefinition) : List FormDefinition :=
  List.insertionSort keyLE defs

/-- Lookup `step_to_def.get(dep)` for a step's `depends_on_step_order`:
the (first) definition whose `step_order` equals the reference.  On the
duplicate-free inputs where the executor uses it, this is the unique one. -/
def parentOf (ordered : List FormDefinition) (fd : FormDefinition) :
    Option FormDefinition :=
  match fd.depends_on_step_order with
  | none => none
  | some dep => ordered.find? (fun p => p.step_order == dep)

/-- The validity scan of `_order_form_definitions` (lines 49-60): every
dependency reference must resolve to an existing step whose id differs
from the child's own. -/
def depsValid (ordered : List FormDefinition) : Bool :=
  ordered.all (fun fd =>
    match fd.depends_on_step_order with
    | none => true
    | some dep =>
      match ordered.find? (fun p => p.step_order == dep) with
      | none => false
      | some p => p.id != fd.id)

/-- `children[node_id]` after the build loop and the per-list sort:
all steps whose resolved parent is `p`, sorted by the step key.  (The
build iterates `ordered_by_step`, so the filter is already key-sorted;
the code sorts again, which we mirror.) -/
def childrenOf (ordered : List FormDefinition) (p : FormDefinition) :
    List FormDefinition :=
  List.insertionSort keyLE
    (ordered.filter (fun c =>
      match parentOf ordered c with
      | some q => q.id == p.id
      | none => false))

/-- Initial in-degree after the build loop: one increment per valid
dependency edge into the step. -/
def initIndeg (fd : FormDefinition) : Int :=
  match fd.depends_on_step_order with
  | none => 0
  | some _ => 1

/-- One iteration's inner `for child in children[current.id]` loop:
decrement each child's in-degree and append the newly ready children. -/
def processChildren (children : List FormDefinition)
    (ready : List FormDefinition) (indeg : Nat → Int) :
    List FormDefinition × (Nat → Int) :=
  children.foldl
    (fun st child =>
      let ind : Nat → Int := fun i => if i = child.id then st.2 child.id - 1 else st.2 i
      if ind child.id = 0 then (st.1 ++ [child], ind) else (st.1, ind))
    (ready, indeg)

/-- The `while ready:` loop of Kahn's algorithm (lines 71-79), with a
fuel parameter for termination.  Each iteration pops the head of the
ready queue, emits it, decrements its children's in-degrees, enqueues
newly ready children and re-sorts the queue. -/
def kahnLoop (childrenFn : FormDefinition → List FormDefinition)
    (fuel : Nat) (ready : List FormDefinition) (indeg : Nat → Int)
    (acc : List FormDefinition) : List FormDefinition :=
  match fuel with
  | 0 => acc
  | fuel + 1 =>
    match ready with
    | [] => acc
    | current :: rest =>
      let st := processChildren (childrenFn current) rest indeg
      kahnLoop childrenFn fuel (List.insertionSort keyLE st.1) st.2
        (acc ++ [current])

/-- The in-degree table after the build loop, keyed by record id:
zero increments for a step without a dependency, one for a step with a
(valid) dependency. -/
def indeg0 (ordered : List FormDefinition) : Nat → Int := fun i =>
  match ordered.find? (fun fd => fd.id == i) with
  | some fd => initIndeg fd
  | none => 0

/-- The seeded ready queue (line 65): zero-in-degree steps sorted by key. -/
def initReady (ordered : List FormDefinition) : List FormDefinition :=
  List.insertionSort keyLE
    (ordered.filter (fun fd => indeg0 ordered fd.id == 0))

/-- The graph order computed by the `while ready:` loop.  The loop runs
at most `2 * n` iterations in any execution (each queue entry is popped
once, and entries number at most seeds plus decrements), so fuel
`2 * n + 1` never binds. -/
def kahnResult (ordered : List FormDefinition) : List FormDefinition :=
  kahnLoop (childrenOf ordered) (2 * ordered.length + 1)
    (initReady ordered) (indeg0 ordered) []

/-- `TaskExecutor._order_form_definitions` (task_executor.py lines 33-85):
dependency-ordered steps with a safe linear fallback on duplicate step
orders, invalid dependency references, or cycles. -/
def order_form_definitions (form_defs : List FormDefinition) :
    List FormDefinition :=
  let ordered := sortByStepKey form_defs
  if ordered.length ≤ 1 then ordered
  else if ¬ (ordered.map (·.step_order)).Nodup then ordered
  else if ¬ depsValid ordered then ordered
  else if (kahnResult ordered).length ≠ ordered.length then ordered
  else kahnResult ordered

/-! ### Checkbox truthy parsing (task_executor.py lines 325-329)

`value.lower() in ('true', '1', 'yes', 'on')`. -/

/-- CPython `str.lower`, embedded per character.  `Char.toLower`
lowercases exactly the basic latin letters; CPython's full-Unicode
lowering agrees with it on the ASCII range, and no character outside
that range lowercases onto a letter of the four truthy words, so the
membership test below is unaffected. -/
def pyLower (s : String) : String :=
  ⟨s.data.map Char.toLower⟩

def checkboxTruthy (value : String) : Bool :=
  ["true", "1", "yes", "on"].contains (pyLower value)

/-! ### Display session pool (vnc_manager.py)

`VNCManager.sessions` is a dict from session id to a per-session record;
we embed it as an association list with unique keys (uuid4 keys), and
process handles as abstract `Option Nat` values (`none` models Python
`None`).  Killing a process and revoking a token are emitted as trace
operations, since their effects are outside the interpreter. -/

def MAX_SESSIONS : Nat := 20
def BASE_DISPLAY : Nat := 99
def BASE_VNC_PORT : Nat := 5999

structure VncSession where
  execution_id : String
  slot : Nat
  display : String
  vnc_port : Nat
  status : String
  resume_fired : Bool
  xvfb_proc : Option Nat
  x11vnc_proc : Option Nat
  vnc_token : Option String
deriving DecidableEq, Repr

structure PoolState where
  sessions : List (String × VncSession)
deriving DecidableEq, Repr

/-- `VNCManager._kill_proc` / `_remove_token` side effects, recorded as
trace operations. -/
inductive PoolOp
  | killProc (handle : Nat)
  | removeToken (token : String)
  | cleanDisplayFiles (display : String)
deriving DecidableEq, Repr

def lookupSession (st : PoolState) (sid : String) : Option VncSession :=
  (st.sessions.find? (fun e => e.1 == sid)).map (·.2)

def updateSession (st : PoolState) (sid : String) (f : VncSession → VncSession) :
    PoolState :=
  ⟨st.sessions.map (fun e => if e.1 == sid then (e.1, f e.2) else e)⟩

def usedSlots (st : PoolState) : List Nat :=
  st.sessions.map (·.2.slot)

/-- `VNCManager._find_free_slot` (lines 75-81): first slot in
`range(MAX_SESSIONS)` not used by any active session; `none` models the
`RuntimeError` raised when all are taken. -/
def find_free_slot (st : PoolState) : Option Nat :=
  (List.range MAX_SESSIONS).find? (fun slot => !(usedSlots st).contains slot)

def display_for_slot (slot : Nat) : String :=
  ":" ++ toString (BASE_DISPLAY + slot)

def vnc_port_for_slot (slot : Nat) : Nat :=
  BASE_VNC_PORT + slot

/-- `VNCManager.reserve_display` (lines 175-231).  `sid` models the
fresh `uuid4` session id, `xvfbHandle` the started Xvfb process, and
`xvfbFail1`/`xvfbFail2` whether the first start and the retry die
immediately (`poll() is not None`).  The error case models the raised
`RuntimeError`; on it the session has been popped again, so the pool is
unchanged. -/
def reserve_display (st : PoolState) (execution_id sid : String)
    (xvfbHandle : Nat) (xvfbFail1 xvfbFail2 : Bool) :
    Except String (PoolState × String × String) :=
  match find_free_slot st with
  | none => .error "No free VNC slots"
  | some slot =>
    let display := display_for_slot slot
    let sess : VncSession :=
      { execution_id := execution_id
        slot := slot
        display := display
        vnc_port := vnc_port_for_slot slot
        status := "reserved"
        resume_fired := false
        xvfb_proc := some xvfbHandle
        x11vnc_proc := none
        vnc_token := none }
    if xvfbFail1 = false then
      .ok (⟨st.sessions ++ [(sid, sess)]⟩, sid, display)
    else if xvfbFail2 = false then
      .ok (⟨st.sessions ++ [(sid, sess)]⟩, sid, display)
    else
      .error "Failed to start Xvfb"

/-- `VNCManager.activate_vnc` (lines 233-273): start x11vnc, mint a
token, register the route, mark the session active.  `x11vncHandle` and
`token` model the fresh process and `secrets.token_urlsafe(32)`. -/
def activate_vnc (st : PoolState) (sid : String) (x11vncHandle : Nat)
    (token : String) : Except String (PoolState × String) :=
  match lookupSession st sid with
  | none => .error "Session not found"
  | some _ =>
    .ok (updateSession st sid (fun s =>
      { s with x11vnc_proc := some x11vncHandle
               vnc_token := some token
               status := "active" }), token)

/-- `VNCManager.deactivate_vnc` (lines 275-294): revoke the token, kill
x11vnc, return the session to `reserved` — Xvfb and the slot are left
untouched and the session stays in the pool. -/
def deactivate_vnc (st : PoolState) (sid : String) :
    PoolState × List PoolOp :=
  match lookupSession st sid with
  | none => (st, [])
  | some sess =>
    let tokenOps := match sess.vnc_token with
      | some t => [PoolOp.removeToken t]
      | none => []
    let killOps := match sess.x11vnc_proc with
      | some h => [PoolOp.killProc h]
      | none => []
    (updateSession st sid (fun s =>
      { s with vnc_token := none, x11vnc_proc := none, status := "reserved" }),
     tokenOps ++ killOps)

/-- `VNCManager.wait_for_resume` (lines 303-312), observed at a point
where no further signal will arrive before the timeout: the underlying
`asyncio.Event.wait` returns immediately when the event is already set
(level-triggered), and otherwise the wait times out and returns
`False`.  An unknown session returns `False`. -/
def wait_for_resume (st : PoolState) (sid : String) : Bool :=
  match lookupSession st sid with
  | none => false
  | some sess => sess.resume_fired

/-- `VNCManager.resume_session` (lines 314-323): mark the session
resumed and set its resume event; returns the response status string. -/
def resume_session (st : PoolState) (sid : String) : PoolState × String :=
  match lookupSession st sid with
  | none => (st, "not_found")
  | some _ =>
    (updateSession st sid (fun s =>
      { s with status := "resumed", resume_fired := true }), "resumed")

/-- `VNCManager.stop_session` (lines 325-346): pop the session, fire its
resume event, revoke the token, kill x11vnc then Xvfb, clean display
files. -/
def stop_session (st : PoolState) (sid : String) :
    PoolState × String × List PoolOp :=
  match lookupSession st sid with
  | none => (st, "not_found", [])
  | some sess =>
    let ops :=
      (match sess.vnc_token with
        | some t => [PoolOp.removeToken t]
        | none => []) ++
      (match sess.x11vnc_proc with
        | some h => [PoolOp.killProc h]
        | none => []) ++
      (match sess.xvfb_proc with
        | some h => [PoolOp.killProc h]
        | none => []) ++
      [PoolOp.cleanDisplayFiles sess.display]
    (⟨st.sessions.filter (fun e => e.1 ≠ sid)⟩, "stopped", ops)

/-! ### Interactive editing session commands (api/editing.py)

A `HighlighterRegistry` session wraps a live page; we embed the state an
endpoint can read or write (busy flags, current mode, field list) and
express each endpoint as a function from the session to the resulting
session plus an HTTP-style outcome.  In-page effects (overlay commands,
navigation) are emitted as trace operations.  An endpoint that raises
`HTTPException` before mutating returns the input session unchanged,
exactly as the live registry keeps the old object when a handler
raises. -/

structure EditingSession where
  executing : Bool
  navigating : Bool
  mode : String
  fields : List (List (String × String))
deriving DecidableEq, Repr

inductive ApiOutcome
  | ok
  | badRequest (detail : String)
  | conflict (detail : String)
  | serverError (detail : String)
deriving DecidableEq, Repr

inductive PageOp
  | setMode (mode : String)
  | updateFields (count : Nat)
  | focusField (index : Int)
  | testSelector (selector : String)
  | fillField (index : Int) (value : String)
  | readFieldValue (index : Int)
  | goto (url : String)
  | loginRun
deriving DecidableEq, Repr

/-- `_assert_session_command_ready` (editing.py lines 65-70). -/
def assert_session_command_ready (s : EditingSession) : Option ApiOutcome :=
  if s.executing then some (.conflict "Login execution already in progress")
  else if s.navigating then some (.conflict "Step navigation already in progress")
  else none

/-- `POST /editing/mode` (lines 188-197). -/
def set_mode (s : EditingSession) (mode : String) :
    EditingSession × ApiOutcome × List PageOp :=
  if ¬ (mode = "select" ∨ mode = "add" ∨ mode = "remove") then
    (s, .badRequest "Invalid mode. Must be: select, add, remove", [])
  else
    match assert_session_command_ready s with
    | some e => (s, e, [])
    | none => ({ s with mode := mode }, .ok, [.setMode mode])

/-- `POST /editing/update-fields` (lines 200-207). -/
def update_fields (s : EditingSession) (fields : List (List (String × String))) :
    EditingSession × ApiOutcome × List PageOp :=
  match assert_session_command_ready s with
  | some e => (s, e, [])
  | none => ({ s with fields := fields }, .ok, [.updateFields fields.length])

/-- `POST /editing/focus-field` (lines 210-216). -/
def focus_field (s : EditingSession) (index : Int) :
    EditingSession × ApiOutcome × List PageOp :=
  match assert_session_command_ready s with
  | some e => (s, e, [])
  | none => (s, .ok, [.focusField index])

/-- `POST /editing/test-selector` (lines 219-225). -/
def test_selector (s : EditingSession) (selector : String) :
    EditingSession × ApiOutcome × List PageOp :=
  match assert_session_command_ready s with
  | some e => (s, e, [])
  | none => (s, .ok, [.testSelector selector])

/-- `POST /editing/fill-field` (lines 228-234). -/
def fill_field (s : EditingSession) (index : Int) (value : String) :
    EditingSession × ApiOutcome × List PageOp :=
  match assert_session_command_ready s with
  | some e => (s, e, [])
  | none => (s, .ok, [.fillField index value])

/-- `POST /editing/read-field-value` (lines 237-243): deliberately does
not call `_assert_session_command_ready` — reading is allowed even while
a login execution or navigation is in progress. -/
def read_field_value (s : EditingSession) (index : Int) :
    EditingSession × ApiOutcome × List PageOp :=
  (s, .ok, [.readFieldValue index])

/-- `POST /editing/navigate` (lines 274-327): reject if busy, set the
`navigating` flag, go to the URL, and clear the flag in `finally`
whether the navigation succeeded or raised.  `gotoFails` models the
`page.goto` call raising. -/
def navigate_step (s : EditingSession) (url : String) (gotoFails : Bool) :
    EditingSession × ApiOutcome × List PageOp :=
  if s.executing then (s, .conflict "Login execution already in progress", [])
  else if s.navigating then (s, .conflict "Step navigation already in progress", [])
  else
    if gotoFails then
      ({ s with navigating := false }, .serverError "Navigation failed", [.goto url])
    else
      ({ s with navigating := false }, .ok, [.goto url])

/-- `POST /editing/execute-login` (lines 347-564), up to the point the
background task is spawned: reject if busy, otherwise set `executing`
and acknowledge with `started`. -/
def execute_login_start (s : EditingSession) :
    EditingSession × ApiOutcome × List PageOp :=
  if s.executing then (s, .conflict "Login execution already in progress", [])
  else if s.navigating then (s, .conflict "Step navigation already in progress", [])
  else ({ s with executing := true }, .ok, [.loginRun])

/-- The background `_run` task's `finally:` clause (line 560-561):
`executing` is cleared on the success and the failure path alike. -/
def execute_login_finish (s : EditingSession) : EditingSession :=
  { s with executing := false }

/-! ### Task executor (task_executor.py, `TaskExecutor.execute`)

The run is embedded as a function from an environment of external
outcomes (navigation failures, selector waits, per-field fill failures,
pause resolutions, submit failures) to the returned dict, the persisted
`ExecutionLog` fields and a trace of observable effects.  One
`step_info` dict is created per loop iteration, so dict identity
(`steps_log[-1] is step_info`) is modeled by the `stepIdx` tag, and an
in-place mutation of a dict already appended to the log is modeled by
replacing the aliased last entry. -/

structure FormFieldRec where
  field_name : String
  field_type : String
  field_selector : String
  preset_value : Option String
  is_sensitive : Bool
  is_file_upload : Bool
deriving DecidableEq, Repr

/-- One `step_info` dict.  `stepIdx` tags the loop iteration that
created the dict (its object identity); keys that only carry opaque
display data (`vnc_url`, `ws_port`, `navigated`, …) are omitted. -/
structure StepEntry where
  stepIdx : Nat
  step : Int
  status : String
  error : Option String
  field_errors : List (String × String)
  waiting_reason : Option String
deriving DecidableEq, Repr

/-- External outcomes for one step of the loop. -/
structure StepWorld where
  nav_error : Option String
  selector_found : Bool
  fill_error : Nat → Option String
  pause_resumed : Bool
  submit_error : Option String

structure RunEnv where
  execution_id : String
  is_dry_run : Bool
  encryption_key : Option String
  decrypt : String → String → Option String
  upload_dir : String
  launch_error : Option String
  reserve_ok : Bool
  steps : List (FormDefinition × List FormFieldRec × StepWorld)

inductive EffectOp
  | reserveDisplay
  | activateVnc
  | deactivateVnc
  | stopSession
  | goto (url : String)
  | setHidden (selector value : String)
  | setFiles (selector path : String)
  | selectOpt (selector value : String)
  | checkBox (selector : String)
  | uncheckBox (selector : String)
  | checkRadio (selector value : String)
  | fillText (selector value : String)
  | clickSubmit (stepIdx : Nat) (selector : String)
  | screenshot (name : String)
  | browserClose
deriving DecidableEq, Repr

/-- Lines 306-312: sensitive values are decrypted when a (truthy)
encryption key is configured; a decryption failure is swallowed by
`except Exception: pass`, leaving the stored preset value in use. -/
def resolveValue (key : Option String) (decrypt : String → String → Option String)
    (f : FormFieldRec) (raw : String) : String :=
  if f.is_sensitive then
    match key with
    | none => raw
    | some k =>
      match decrypt k raw with
      | some v => v
      | none => raw
  else raw

/-- The field-type dispatch of lines 314-333. -/
def fillOp (upload_dir : String) (f : FormFieldRec) (value : String) : EffectOp :=
  if f.field_type = "hidden" then .setHidden f.field_selector value
  else if f.is_file_upload then .setFiles f.field_selector (upload_dir ++ "/" ++ value)
  else if f.field_type = "select" then .selectOpt f.field_selector value
  else if f.field_type = "checkbox" then
    (if checkboxTruthy value then .checkBox f.field_selector
     else .uncheckBox f.field_selector)
  else if f.field_type = "radio" then .checkRadio f.field_selector value
  else .fillText f.field_selector value

/-- The `for field in fields:` loop (lines 300-347): skip null presets,
resolve the value, perform the fill, and on a raised fill record a
`field_<name>_error` key on the step dict and continue. -/
def fillFieldsAux (key : Option String) (decrypt : String → String → Option String)
    (upload_dir : String) (fill_error : Nat → Option String) :
    Nat → List FormFieldRec → StepEntry → List EffectOp →
    StepEntry × List EffectOp
  | _, [], e, tr => (e, tr)
  | j, f :: rest, e, tr =>
    match f.preset_value with
    | none => fillFieldsAux key decrypt upload_dir fill_error (j + 1) rest e tr
    | some raw =>
      let value := resolveValue key decrypt f raw
      match fill_error j with
      | some msg =>
        fillFieldsAux key decrypt upload_dir fill_error (j + 1) rest
          { e with field_errors := e.field_errors ++ [(f.field_name, msg)] } tr
      | none =>
        fillFieldsAux key decrypt upload_dir fill_error (j + 1) rest e
          (tr ++ [fillOp upload_dir f value])

structure PauseOut where
  resumed : Bool
  entry : StepEntry
  log : List StepEntry
  ops : List EffectOp

/-- `TaskExecutor._vnc_pause` (lines 92-163): activate VNC, append the
`waiting_manual` step dict, wait for resume.  On timeout the run record
is marked failed and the browser closed; on resume VNC is deactivated
and the already-appended dict is mutated in place to
`breakpoint_resolved`. -/
def vncPauseModel (resumed : Bool) (e : StepEntry) (log : List StepEntry) :
    PauseOut :=
  let e1 := { e with status := "waiting_manual", waiting_reason := some "breakpoint" }
  let log1 := log ++ [e1]
  if resumed = false then
    { resumed := false, entry := e1, log := log1,
      ops := [.activateVnc, .browserClose] }
  else
    let e2 := { e1 with status := "breakpoint_resolved" }
    { resumed := true, entry := e2, log := log1.dropLast ++ [e2],
      ops := [.activateVnc, .deactivateVnc] }

/-- Lines 417-419: `if not steps_log or steps_log[-1] is not step_info:
steps_log.append(step_info)`.  When the last entry is this iteration's
dict (appended by `_vnc_pause`), the in-place mutations are already
visible through the alias, modeled by replacing the last entry;
otherwise the dict is appended. -/
def commitEntry (log : List StepEntry) (e : StepEntry) : List StepEntry :=
  match log.getLast? with
  | some last =>
    if last.stepIdx = e.stepIdx then log.dropLast ++ [e] else log ++ [e]
  | none => [e]

/-- Line 380 in the dry-run branch appends `step_info` unconditionally;
if `_vnc_pause` already appended the same dict, the status mutation is
visible through the alias and the append duplicates the entry. -/
def syncLast (log : List StepEntry) (e : StepEntry) : List StepEntry :=
  match log.getLast? with
  | some last =>
    if last.stepIdx = e.stepIdx then log.dropLast ++ [e] else log
  | none => log

inductive BodyExit
  | raised (msg : String)
  | timedOut
  | dryRunDone
  | completed
deriving DecidableEq, Repr

/-- The fresh `step_info` dict created at the top of iteration `i`. -/
def stepEntry0 (i : Nat) (fd : FormDefinition) : StepEntry :=
  { stepIdx := i, step := fd.step_order, status := "started",
    error := none, field_errors := [], waiting_reason := none }

def formNotFoundMsg (fd : FormDefinition) : String :=
  "Form selector " ++ fd.form_selector.getD "" ++ " not found"

/-- The field-fill loop of iteration `i`, started on the fresh dict with
an empty local trace. -/
def stepFill (env : RunEnv) (i : Nat) (fd : FormDefinition)
    (fields : List FormFieldRec) (w : StepWorld) : StepEntry × List EffectOp :=
  fillFieldsAux env.encryption_key env.decrypt env.upload_dir w.fill_error
    0 fields (stepEntry0 i fd) []

/-- The optional human-breakpoint pause after filling: a step without
the flag passes through unchanged. -/
def stepPause (fd : FormDefinition) (w : StepWorld) (e : StepEntry)
    (log : List StepEntry) : PauseOut :=
  if fd.human_breakpoint then vncPauseModel w.pause_resumed e log
  else { resumed := true, entry := e, log := log, ops := [] }

/-- The submit attempt of lines 404-415 applied to the step dict. -/
def stepSubmitEntry (w : StepWorld) (e : StepEntry) : StepEntry :=
  match w.submit_error with
  | none => { e with status := "submitted" }
  | some msg => { e with status := "submit_error", error := some msg }

def stepSubmitOps (i : Nat) (fd : FormDefinition) (w : StepWorld) :
    List EffectOp :=
  match w.submit_error with
  | none => [.clickSubmit i fd.submit_selector]
  | some _ => []

/-- The `for i, form_def in enumerate(form_defs):` loop (lines 254-427),
one iteration per remaining step, threading the step log and the effect
trace. -/
def runSteps (env : RunEnv) :
    Nat → List (FormDefinition × List FormFieldRec × StepWorld) →
    List StepEntry → List EffectOp →
    BodyExit × List StepEntry × List EffectOp
  | _, [], log, tr => (.completed, log, tr)
  | i, (fd, fields, w) :: rest, log, tr =>
    match w.nav_error with
    | some msg => (.raised msg, log, tr ++ [.goto fd.page_url])
    | none =>
      if fd.form_selector.isSome && !w.selector_found then
        (.raised (formNotFoundMsg fd),
         log ++ [{ (stepEntry0 i fd) with
                   status := "form_not_found",
                   error := some (formNotFoundMsg fd) }],
         tr ++ [.goto fd.page_url])
      else
        let fr := stepFill env i fd fields w
        let p := stepPause fd w fr.1 log
        if p.resumed = false then
          (.timedOut, p.log, tr ++ [.goto fd.page_url] ++ fr.2 ++ p.ops)
        else
          if env.is_dry_run && rest.isEmpty then
            let e3 := { p.entry with status := "dry_run_complete" }
            (.dryRunDone, syncLast p.log e3 ++ [e3],
             tr ++ [.goto fd.page_url] ++ fr.2 ++ p.ops ++
               [.screenshot (env.execution_id ++ "_dryrun.png"), .browserClose])
          else
            runSteps env (i + 1) rest
              (commitEntry p.log (stepSubmitEntry w p.entry))
              (tr ++ [.goto fd.page_url] ++ fr.2 ++ p.ops ++
                stepSubmitOps i fd w)

structure ExecutionRecord where
  status : String
  error_message : Option String
  steps_log : List StepEntry
  screenshot_path : Option String
deriving DecidableEq, Repr

structure RunResult where
  status : String
  error : Option String
  screenshot : Option String
deriving DecidableEq, Repr

structure ExecOutcome where
  result : Except String RunResult
  record : ExecutionRecord
  trace : List EffectOp

def needsVnc (env : RunEnv) : Bool :=
  env.steps.any (fun s => s.1.human_breakpoint)

/-- Assembly of the returned dict, the persisted record and the trace
from the step loop's exit, including the `finally:` stop of the
reserved session (`needs` = a display session was reserved). -/
def execAssemble (env : RunEnv) (needs : Bool) :
    BodyExit × List StepEntry × List EffectOp → ExecOutcome
  | (.raised msg, log, tr) =>
    { result := .ok { status := "failed", error := some msg, screenshot := none },
      record := { status := "failed", error_message := some msg,
                  steps_log := log, screenshot_path := none },
      trace := (if needs then [.reserveDisplay] else []) ++ tr ++
        (if needs then [.stopSession] else []) }
  | (.timedOut, log, tr) =>
    { result := .ok { status := "failed",
                      error := some "VNC timeout (breakpoint)",
                      screenshot := none },
      record := { status := "failed",
                  error_message :=
                    some "VNC session timed out waiting for manual intervention (breakpoint)",
                  steps_log := log, screenshot_path := none },
      trace := (if needs then [.reserveDisplay] else []) ++ tr ++
        (if needs then [.stopSession] else []) }
  | (.dryRunDone, log, tr) =>
    { result := .ok { status := "dry_run_ok", error := none,
                      screenshot := some (env.execution_id ++ "_dryrun.png") },
      record := { status := "dry_run_ok", error_message := none,
                  steps_log := log,
                  screenshot_path := some (env.execution_id ++ "_dryrun.png") },
      trace := (if needs then [.reserveDisplay] else []) ++ tr ++
        (if needs then [.stopSession] else []) }
  | (.completed, log, tr) =>
    { result := .ok { status := "success", error := none,
                      screenshot := some (env.execution_id ++ "_final.png") },
      record := { status := "success", error_message := none,
                  steps_log := log,
                  screenshot_path := some (env.execution_id ++ "_final.png") },
      trace := (if needs then [.reserveDisplay] else []) ++ tr ++
        [.screenshot (env.execution_id ++ "_final.png"), .browserClose] ++
        (if needs then [.stopSession] else []) }

/-- `TaskExecutor.execute` (lines 165-501) after the task and execution
rows are loaded: reserve a display when some step has a human
breakpoint, run the step loop inside try/except, and in `finally` stop
the reserved session on every exit path.  A reservation failure raises
before the `try:` block, so it propagates (`.error`) with no session to
stop. -/
def executeModel (env : RunEnv) : ExecOutcome :=
  if needsVnc env && !env.reserve_ok then
    { result := .error "No free VNC slots",
      record := { status := "running", error_message := none,
                  steps_log := [], screenshot_path := none },
      trace := [.reserveDisplay] }
  else
    match env.launch_error with
    | some msg =>
      { result := .ok { status := "failed", error := some msg, screenshot := none },
        record := { status := "failed", error_message := some msg,
                    steps_log := [], screenshot_path := none },
        trace := (if needsVnc env then [.reserveDisplay] else []) ++
          (if needsVnc env then [.stopSession] else []) }
    | none =>
      execAssemble env (needsVnc env) (runSteps env 0 env.steps [] [])

/-! ### Predicates and concrete environments used by the theorems -/

/-- The dependency graph has a cycle: a nonempty subset of the steps in
which every member's resolved parent is again a member.  Any actual
dependency cycle is such a set (the cycle itself), and conversely such a
finite set always contains a cycle, since following parents inside it
never exits. -/
def HasCycle (ordered : List FormDefinition) : Prop :=
  ∃ S : List FormDefinition, S ≠ [] ∧ (∀ c ∈ S, c ∈ ordered) ∧
    ∀ c ∈ S, ∃ p ∈ S, parentOf ordered c = some p

/-- The dependency graph is acyclic, witnessed by a rank function that
strictly decreases from child to parent. -/
def AcyclicRanked (ordered : List FormDefinition) : Prop :=
  ∃ rank : Nat → Nat, ∀ c ∈ ordered, ∀ p, parentOf ordered c = some p →
    rank p.id < rank c.id

/-- The loop invariant of Kahn's algorithm in `_order_form_definitions`:
queue and emitted list draw from `ordered` without repetition, every
emitted or queued step's parent is already emitted, no emitted step's
parent comes later, the in-degree table is `0` exactly on emitted and
queued steps, and every still-pending step has a dependency whose parent
is not yet emitted. -/
structure LoopInv (ordered ready acc : List FormDefinition)
    (indeg : Nat → Int) : Prop where
  subR : ∀ c ∈ ready, c ∈ ordered
  subA : ∀ c ∈ acc, c ∈ ordered
  nodup : (acc ++ ready).Nodup
  parentsAcc : ∀ c ∈ acc, ∀ p, parentOf ordered c = some p → p ∈ acc
  parentsReady : ∀ c ∈ ready, ∀ p, parentOf ordered c = some p → p ∈ acc
  noLater : acc.Pairwise (fun a b => parentOf ordered a ≠ some b)
  indegIn : ∀ c ∈ ordered, (c ∈ acc ∨ c ∈ ready) → indeg c.id = 0
  indegOut : ∀ c ∈ ordered, c ∉ acc → c ∉ ready → indeg c.id = 1
  pendingDep : ∀ c ∈ ordered, c ∉ acc → c ∉ ready →
    (c.depends_on_step_order.isSome ∧
      ∀ p, parentOf ordered c = some p → p ∉ acc)

/-- A step of the executor environment whose external world cooperates:
navigation succeeds, a specified form selector is found, a breakpoint
pause is resumed, and the submit click does not raise. -/
def benignStep (x : FormDefinition × List FormFieldRec × StepWorld) : Prop :=
  x.2.2.nav_error = none ∧
  (x.1.form_selector.isSome → x.2.2.selector_found = true) ∧
  (x.1.human_breakpoint = true → x.2.2.pause_resumed = true) ∧
  x.2.2.submit_error = none

/-- The conflict detail an endpoint raises for a busy session: the
`executing` flag is checked first, then `navigating`. -/
def busyDetail (s : EditingSession) : String :=
  if s.executing then "Login execution already in progress"
  else "Step navigation already in progress"

/-- A dry run whose single step has a human breakpoint that is resumed:
the input on which the dry-run branch duplicates the paused step entry. -/
def c3Env : RunEnv :=
  { execution_id := "E"
    is_dry_run := true
    encryption_key := none
    decrypt := fun _ _ => none
    upload_dir := "/uploads"
    launch_error := none
    reserve_ok := true
    steps := [(⟨1, 1, none, "http://target", "login", none, "#submit", true⟩,
               [], ⟨none, true, fun _ => none, true, none⟩)] }

/-- A benign two-step dry run used by the dry-run witness. -/
def c6Env : RunEnv :=
  { execution_id := "E6"
    is_dry_run := true
    encryption_key := none
    decrypt := fun _ _ => none
    upload_dir := "/uploads"
    launch_error := none
    reserve_ok := true
    steps := [(⟨1, 1, none, "http-one", "login", none, "#s1", false⟩,
               [], ⟨none, true, fun _ => none, true, none⟩),
              (⟨2, 2, none, "http-two", "target", none, "#s2", false⟩,
               [], ⟨none, true, fun _ => none, true, none⟩)] }

/-- Concrete sessions and pools used by the pool witnesses. -/
def c7Sess : VncSession :=
  { execution_id := "e0", slot := 0, display := ":99", vnc_port := 5999,
    status := "reserved", resume_fired := false, xvfb_proc := some 7,
    x11vnc_proc := none, vnc_token := none }

def c7Pool : PoolState := ⟨[("s0", c7Sess)]⟩

def c8SessA : VncSession :=
  { execution_id := "e0", slot := 0, display := ":99", vnc_port := 5999,
    status := "active", resume_fired := false, xvfb_proc := some 7,
    x11vnc_proc := some 8, vnc_token := some "tok" }

def c8SessB : VncSession :=
  { execution_id := "e1", slot := 1, display := ":100", vnc_port := 6000,
    status := "reserved", resume_fired := false, xvfb_proc := some 9,
    x11vnc_proc := none, vnc_token := none }

def c8Pool : PoolState := ⟨[("a", c8SessA), ("b", c8SessB)]⟩

/-- A pool holding all twenty slots with live sessions (session ids
`a` … `t`; display strings are opaque state here). -/
def c4FullPool : PoolState :=
  ⟨(List.range MAX_SESSIONS).map (fun k =>
    (String.mk [Char.ofNat (97 + k)],
     { execution_id := "e"
       slot := k
       display := "disp"
       vnc_port := 5999 + k
       status := "reserved"
       resume_fired := false
       xvfb_proc := some (100 + k)
       x11vnc_proc := none
       vnc_token := none }))⟩

/-- Resolver fixture: a dependency-free first step. -/
def c2A : FormDefinition :=
  ⟨0, 1, none, "https://example.test/p1", "contact", none, "#next", false⟩

/-- Resolver fixture: a second step depending on step order `1`. -/
def c2B : FormDefinition :=
  ⟨1, 2, some 1, "https://example.test/p2", "contact", none, "#send", false⟩

/-- Resolver fixture: a two-step task with one dependency edge. -/
def c2defs : List FormDefinition := [c2A, c2B]

/-! ## Theorems -/

/-- C9: For every checkbox-typed form field with a non-null preset
value, the executor checks the box if and only if the value, compared
case-insensitively, equals one of `true`, `1`, `yes`, `on`, and unchecks
the box for every other non-null value. -/
theorem checkbox_truthy_parse (upload_dir : String) (f : FormFieldRec)
    (v : String) (hcb : f.field_type = "checkbox")
    (hfile : f.is_file_upload = false) :
    (fillOp upload_dir f v = .checkBox f.field_selector ↔
      (pyLower v = "true" ∨ pyLower v = "1" ∨ pyLower v = "yes" ∨
        pyLower v = "on")) ∧
    (¬ (pyLower v = "true" ∨ pyLower v = "1" ∨ pyLower v = "yes" ∨
        pyLower v = "on") →
      fillOp upload_dir f v = .uncheckBox f.field_selector) := by
  have hmem : checkboxTruthy v = true ↔
      (pyLower v = "true" ∨ pyLower v = "1" ∨ pyLower v = "yes" ∨
        pyLower v = "on") := by
    simp [checkboxTruthy, List.contains]
  have hop : fillOp upload_dir f v =
      (if checkboxTruthy v = true then EffectOp.checkBox f.field_selector
       else EffectOp.uncheckBox f.field_selector) := by
    unfold fillOp
    rw [hcb, hfile]
    rw [if_neg (by decide : ¬("checkbox" = "hidden"))]
    rw [if_neg (by decide : ¬(false = true))]
    rw [if_neg (by decide : ¬("checkbox" = "select"))]
    rw [if_pos (rfl : "checkbox" = "checkbox")]
  constructor
  · rw [hop]
    by_cases h : checkboxTruthy v = true
    · rw [if_pos h]
      exact iff_of_true rfl (hmem.mp h)
    · rw [if_neg h]
      exact iff_of_false (by simp) (fun hp => h (hmem.mpr hp))
  · intro hnot
    rw [hop, if_neg (fun h => hnot (hmem.mp h))]

/-- Witness for C9 at concrete inputs. -/
theorem checkbox_truthy_parse_witness :
    (fillOp "/up" ⟨"cb", "checkbox", "#c", some "YES", false, false⟩ "YES" =
        .checkBox "#c") ∧
    (fillOp "/up" ⟨"cb", "checkbox", "#c", some "no", false, false⟩ "no" =
        .uncheckBox "#c") := by
  constructor
  · exact (checkbox_truthy_parse "/up" ⟨"cb", "checkbox", "#c", some "YES", false, false⟩
      "YES" rfl rfl).1.mpr (by decide)
  · exact (checkbox_truthy_parse "/up" ⟨"cb", "checkbox", "#c", some "no", false, false⟩
      "no" rfl rfl).2 (by decide)

/-- C10: For a sensitive field with a non-null preset value whose
decryption fails (or with no encryption key configured), the failure is
swallowed: no error is recorded for it, the fill uses the original
stored preset value, and the loop proceeds to the next field exactly as
on a successful decryption. -/
theorem sensitive_decrypt_failure_swallowed (key : Option String)
    (decrypt : String → String → Option String) (ud : String)
    (fe : Nat → Option String) (j : Nat) (f : FormFieldRec) (raw : String)
    (rest : List FormFieldRec) (e : StepEntry) (tr : List EffectOp)
    (hs : f.is_sensitive = true) (hp : f.preset_value = some raw)
    (hfail : key = none ∨ ∀ k, key = some k → decrypt k raw = none)
    (hfe : fe j = none) :
    resolveValue key decrypt f raw = raw ∧
    fillFieldsAux key decrypt ud fe j (f :: rest) e tr =
      fillFieldsAux key decrypt ud fe (j + 1) rest e
        (tr ++ [fillOp ud f raw]) := by
  have hval : resolveValue key decrypt f raw = raw := by
    rcases hfail with h | h
    · simp [resolveValue, hs, h]
    · cases hk : key with
      | none => simp [resolveValue, hs]
      | some k => simp [resolveValue, hs, h k hk]
  refine ⟨hval, ?_⟩
  conv_lhs => rw [fillFieldsAux.eq_def]
  simp only [hp, hfe, hval]

/-- Witness for C10 at concrete inputs. -/
theorem sensitive_decrypt_failure_swallowed_witness :
    resolveValue (some "K") (fun _ _ => none)
        ⟨"pw", "password", "#p", some "ENC", true, false⟩ "ENC" = "ENC" ∧
    fillFieldsAux (some "K") (fun _ _ => none) "/up" (fun _ => none) 0
        [⟨"pw", "password", "#p", some "ENC", true, false⟩]
        ⟨0, 1, "started", none, [], none⟩ [] =
      fillFieldsAux (some "K") (fun _ _ => none) "/up" (fun _ => none) 1 []
        ⟨0, 1, "started", none, [], none⟩
        ([] ++ [fillOp "/up" ⟨"pw", "password", "#p", some "ENC", true, false⟩ "ENC"]) :=
  sensitive_decrypt_failure_swallowed (some "K") (fun _ _ => none) "/up"
    (fun _ => none) 0 ⟨"pw", "password", "#p", some "ENC", true, false⟩ "ENC"
    [] ⟨0, 1, "started", none, [], none⟩ [] rfl rfl
    (Or.inr (fun _ _ => rfl)) rfl

/-! ### Pool state helper lemmas -/

theorem find?_update_self (l : List (String × VncSession)) (sid : String)
    (f : VncSession → VncSession) :
    (l.map (fun e => if e.1 == sid then (e.1, f e.2) else e)).find?
        (fun e => e.1 == sid) =
      (l.find? (fun e => e.1 == sid)).map (fun e => (e.1, f e.2)) := by
  induction l with
  | nil => rfl
  | cons e rest ih =>
    simp only [List.map_cons]
    cases hb : (e.1 == sid) with
    | true =>
      rw [if_pos rfl, List.find?_cons, List.find?_cons]
      simp only [hb]
      rfl
    | false =>
      rw [if_neg (by decide), List.find?_cons, List.find?_cons]
      simp only [hb]
      exact ih

theorem find?_update_other (l : List (String × VncSession)) (sid sid2 : String)
    (f : VncSession → VncSession) (h : sid2 ≠ sid) :
    (l.map (fun e => if e.1 == sid then (e.1, f e.2) else e)).find?
        (fun e => e.1 == sid2) =
      l.find? (fun e => e.1 == sid2) := by
  induction l with
  | nil => rfl
  | cons e rest ih =>
    simp only [List.map_cons]
    cases hb : (e.1 == sid) with
    | true =>
      have he : e.1 = sid := beq_iff_eq.mp hb
      have hb2 : (e.1 == sid2) = false := by
        refine beq_false_of_ne ?_
        rw [he]
        exact fun hx => h hx.symm
      rw [if_pos rfl, List.find?_cons, List.find?_cons]
      simp only [hb2]
      exact ih
    | false =>
      rw [if_neg (by decide), List.find?_cons, List.find?_cons]
      cases hb2 : (e.1 == sid2) with
      | true => simp only [hb2]
      | false =>
        simp only [hb2]
        exact ih

theorem lookupSession_update_self (st : PoolState) (sid : String)
    (f : VncSession → VncSession) :
    lookupSession (updateSession st sid f) sid =
      (lookupSession st sid).map f := by
  show ((st.sessions.map (fun e => if e.1 == sid then (e.1, f e.2) else e)).find?
      (fun e => e.1 == sid)).map (·.2) =
    ((st.sessions.find? (fun e => e.1 == sid)).map (·.2)).map f
  rw [find?_update_self]
  cases st.sessions.find? (fun e => e.1 == sid) with
  | none => rfl
  | some e => rfl

theorem lookupSession_update_other (st : PoolState) (sid sid2 : String)
    (f : VncSession → VncSession) (h : sid2 ≠ sid) :
    lookupSession (updateSession st sid f) sid2 = lookupSession st sid2 := by
  show ((st.sessions.map (fun e => if e.1 == sid then (e.1, f e.2) else e)).find?
      (fun e => e.1 == sid2)).map (·.2) =
    ((st.sessions.find? (fun e => e.1 == sid2)).map (·.2))
  rw [find?_update_other _ _ _ _ h]

theorem updateSession_updateSession (st : PoolState) (sid : String)
    (f g : VncSession → VncSession) :
    updateSession (updateSession st sid f) sid g =
      updateSession st sid (fun s => g (f s)) := by
  show PoolState.mk _ = PoolState.mk _
  congr 1
  show (st.sessions.map (fun e => if e.1 == sid then (e.1, f e.2) else e)).map
      (fun e => if e.1 == sid then (e.1, g e.2) else e) =
    st.sessions.map (fun e => if e.1 == sid then (e.1, g (f e.2)) else e)
  induction st.sessions with
  | nil => rfl
  | cons e rest ih =>
    simp only [List.map_cons, ih]
    congr 1
    cases hb : (e.1 == sid) with
    | true => simp [hb]
    | false => simp [hb]

/-- C7: The resume signal is one-shot, idempotent and level-triggered:
a second `resume_session` call leaves the pool state and the response
exactly as after the first, and a `wait_for_resume` that starts after
the signal has fired observes the set event and returns `True`
immediately instead of blocking until timeout. -/
theorem resume_idempotent_level_triggered (st : PoolState) (sid : String) :
    resume_session (resume_session st sid).1 sid = resume_session st sid ∧
    (∀ sess, lookupSession st sid = some sess →
      wait_for_resume (resume_session st sid).1 sid = true) := by
  constructor
  · unfold resume_session
    cases hl : lookupSession st sid with
    | none => simp [hl]
    | some sess =>
      simp only [hl]
      have h2 : lookupSession
          (updateSession st sid (fun s =>
            { s with status := "resumed", resume_fired := true })) sid =
          some { sess with status := "resumed", resume_fired := true } := by
        rw [lookupSession_update_self, hl]; rfl
      simp only [h2, updateSession_updateSession]
  · intro sess hl
    unfold resume_session
    simp only [hl]
    unfold wait_for_resume
    rw [lookupSession_update_self, hl]
    rfl

/-- Witness for C7 at a concrete one-session pool. -/
theorem resume_idempotent_level_triggered_witness :
    lookupSession c7Pool "s0" = some c7Sess ∧
    wait_for_resume (resume_session c7Pool "s0").1 "s0" = true :=
  ⟨by decide,
   (resume_idempotent_level_triggered c7Pool "s0").2 c7Sess (by decide)⟩

/-- C8: `deactivate_vnc` on a session known to the pool kills the x11vnc
process and revokes the token, and changes nothing else: the session
stays in the pool with status back to `reserved`, its Xvfb handle, slot,
display and VNC port intact, and every other session untouched. -/
theorem deactivate_vnc_frame (st : PoolState) (sid : String)
    (sess : VncSession) (h : lookupSession st sid = some sess) :
    lookupSession (deactivate_vnc st sid).1 sid =
      some { sess with vnc_token := none, x11vnc_proc := none,
                       status := "reserved" } ∧
    (∀ sid2, sid2 ≠ sid →
      lookupSession (deactivate_vnc st sid).1 sid2 = lookupSession st sid2) ∧
    (deactivate_vnc st sid).2 =
      (match sess.vnc_token with
        | some t => [PoolOp.removeToken t]
        | none => []) ++
      (match sess.x11vnc_proc with
        | some hd => [PoolOp.killProc hd]
        | none => []) := by
  unfold deactivate_vnc
  simp only [h]
  refine ⟨?_, ?_, by trivial⟩
  · rw [lookupSession_update_self, h]; rfl
  · intro sid2 hne
    exact lookupSession_update_other st sid sid2 _ hne

/-- Witness for C8 at a concrete two-session pool with an active VNC. -/
theorem deactivate_vnc_frame_witness :
    lookupSession c8Pool "a" = some c8SessA ∧
    lookupSession (deactivate_vnc c8Pool "a").1 "a" =
      some { c8SessA with vnc_token := none, x11vnc_proc := none,
                          status := "reserved" } :=
  ⟨by decide, (deactivate_vnc_frame c8Pool "a" c8SessA (by decide)).1⟩

/-! ### Slot allocation lemmas (C4) -/

theorem find?_range_min (N : Nat) (p : Nat → Bool) (s : Nat)
    (h : (List.range N).find? p = some s) :
    p s = true ∧ s < N ∧ ∀ t, t < s → p t = false := by
  induction N generalizing p s with
  | zero => simp at h
  | succ n ih =>
    rw [List.range_succ_eq_map, List.find?_cons] at h
    cases hp0 : p 0 with
    | true =>
      rw [hp0] at h
      cases h
      exact ⟨hp0, Nat.succ_pos n, fun t ht => absurd ht (Nat.not_lt_zero t)⟩
    | false =>
      rw [hp0] at h
      simp only [List.find?_map] at h
      cases hf : (List.range n).find? (p ∘ Nat.succ) with
      | none => rw [hf] at h; cases h
      | some s0 =>
        rw [hf] at h
        cases h
        obtain ⟨h1, h2, h3⟩ := ih (p ∘ Nat.succ) s0 hf
        refine ⟨h1, Nat.succ_lt_succ h2, ?_⟩
        intro t ht
        cases t with
        | zero => exact hp0
        | succ t0 => exact h3 t0 (Nat.lt_of_succ_lt_succ ht)

theorem find?_range_eq (N : Nat) (p : Nat → Bool) (s : Nat)
    (hs : s < N) (hp : p s = true) (hlt : ∀ t, t < s → p t = false) :
    (List.range N).find? p = some s := by
  induction N generalizing p s with
  | zero => exact absurd hs (Nat.not_lt_zero s)
  | succ n ih =>
    rw [List.range_succ_eq_map, List.find?_cons]
    cases s with
    | zero => rw [hp]
    | succ s0 =>
      rw [hlt 0 (Nat.succ_pos s0)]
      simp only [List.find?_map]
      rw [ih (p ∘ Nat.succ) s0 (Nat.lt_of_succ_lt_succ hs) hp
        (fun t ht => hlt (t + 1) (Nat.succ_lt_succ ht))]
      rfl

/-- C4: `reserve_display` allocates the lowest free slot below
`MAX_SESSIONS`; with all twenty slots held it fails with the
resource-exhaustion error; and after `stop_session` frees a slot, the
next reservation succeeds and reuses exactly that freed slot. -/
theorem reserve_lowest_slot_exhaustion_reuse (st : PoolState)
    (eid sid : String) (hX : Nat) :
    (∀ slot, find_free_slot st = some slot →
      slot < MAX_SESSIONS ∧ slot ∉ usedSlots st ∧
      (∀ t, t < slot → t ∈ usedSlots st) ∧
      reserve_display st eid sid hX false false =
        .ok (⟨st.sessions ++ [(sid,
          { execution_id := eid, slot := slot,
            display := display_for_slot slot,
            vnc_port := vnc_port_for_slot slot, status := "reserved",
            resume_fired := false, xvfb_proc := some hX,
            x11vnc_proc := none, vnc_token := none })]⟩, sid,
          display_for_slot slot)) ∧
    ((∀ s, s < MAX_SESSIONS → s ∈ usedSlots st) →
      ∀ f1 f2, reserve_display st eid sid hX f1 f2 =
        .error "No free VNC slots") ∧
    (∀ sid0 sess0, lookupSession st sid0 = some sess0 →
      (usedSlots st).Nodup →
      (st.sessions.map (·.1)).Nodup →
      (∀ s ∈ usedSlots st, s < MAX_SESSIONS) →
      (∀ s, s < MAX_SESSIONS → s ∈ usedSlots st) →
      find_free_slot (stop_session st sid0).1 = some sess0.slot) := by
  refine ⟨?_, ?_, ?_⟩
  · intro slot h
    obtain ⟨h1, h2, h3⟩ := find?_range_min MAX_SESSIONS _ slot h
    have hmem : slot ∉ usedSlots st := by
      intro hm
      rw [show ((usedSlots st).contains slot) = (usedSlots st).elem slot from rfl,
        List.elem_eq_true_of_mem hm] at h1
      cases h1
    refine ⟨List.mem_range.mp (List.mem_of_find?_eq_some h), hmem, ?_, ?_⟩
    · intro t ht
      have h4 := h3 t ht
      have hc : (usedSlots st).elem t = true := by
        cases hcc : (usedSlots st).elem t with
        | true => rfl
        | false =>
          rw [show ((usedSlots st).contains t) = (usedSlots st).elem t from rfl,
            hcc] at h4
          cases h4
      simpa using hc
    · unfold reserve_display
      rw [h]
      rfl
  · intro hall f1 f2
    have hnone : find_free_slot st = none := by
      unfold find_free_slot
      rw [List.find?_eq_none]
      intro x hx
      have hm : x ∈ usedSlots st := hall x (List.mem_range.mp hx)
      show ¬ (!(usedSlots st).contains x) = true
      rw [show ((usedSlots st).contains x) = (usedSlots st).elem x from rfl,
        List.elem_eq_true_of_mem hm]
      decide
    unfold reserve_display
    rw [hnone]
  · intro sid0 sess0 hl hnd hkeys hbound hall
    obtain ⟨e0, he0mem, he0find⟩ :
        ∃ e0, e0 ∈ st.sessions ∧
          st.sessions.find? (fun e => e.1 == sid0) = some e0 := by
      unfold lookupSession at hl
      cases hf : st.sessions.find? (fun e => e.1 == sid0) with
      | none => rw [hf] at hl; cases hl
      | some e0 => exact ⟨e0, List.mem_of_find?_eq_some hf, rfl⟩
    have he0key : e0.1 = sid0 := by
      have hp := List.find?_some he0find
      exact beq_iff_eq.mp hp
    have he0val : e0.2 = sess0 := by
      unfold lookupSession at hl
      rw [he0find] at hl
      cases hl
      rfl
    have hslotinj : ∀ x ∈ st.sessions, ∀ y ∈ st.sessions,
        x.2.slot = y.2.slot → x = y := by
      intro x hx y hy hxy
      exact List.inj_on_of_nodup_map hnd hx hy hxy
    have hmemstop : ∀ t, t ∈ usedSlots (stop_session st sid0).1 ↔
        ∃ e ∈ st.sessions, e.1 ≠ sid0 ∧ e.2.slot = t := by
      intro t
      unfold stop_session
      rw [hl]
      show t ∈ (st.sessions.filter (fun e => e.1 ≠ sid0)).map (·.2.slot) ↔ _
      simp only [List.mem_map, List.mem_filter, decide_eq_true_eq]
      constructor
      · rintro ⟨e, ⟨hmem, hne⟩, ht⟩
        exact ⟨e, hmem, hne, ht⟩
      · rintro ⟨e, hmem, hne, ht⟩
        exact ⟨e, ⟨hmem, hne⟩, ht⟩
    have hfree : sess0.slot ∉ usedSlots (stop_session st sid0).1 := by
      rw [hmemstop]
      rintro ⟨e, hmem, hne, hslot⟩
      have : e = e0 := hslotinj e hmem e0 he0mem (by rw [hslot, he0val])
      rw [this] at hne
      exact hne he0key
    have hkeep : ∀ t, t < sess0.slot → t ∈ usedSlots (stop_session st sid0).1 := by
      intro t ht
      have htmem : t ∈ usedSlots st := hall t (Nat.lt_trans ht
        (hbound sess0.slot (by
          rw [← he0val]
          exact List.mem_map.mpr ⟨e0, he0mem, rfl⟩)))
      obtain ⟨e, hmem, hslot⟩ := List.mem_map.mp htmem
      rw [hmemstop]
      refine ⟨e, hmem, ?_, hslot⟩
      intro hkey
      have hee0 : e = e0 :=
        List.inj_on_of_nodup_map hkeys hmem he0mem (by rw [hkey, he0key])
      rw [hee0, he0val] at hslot
      exact (Nat.ne_of_lt ht) hslot.symm
    have hboundslot : sess0.slot < MAX_SESSIONS :=
      hbound sess0.slot (by
        rw [← he0val]
        exact List.mem_map.mpr ⟨e0, he0mem, rfl⟩)
    unfold find_free_slot
    refine find?_range_eq MAX_SESSIONS _ sess0.slot hboundslot ?_ ?_
    · show (!(usedSlots (stop_session st sid0).1).contains sess0.slot) = true
      cases hc : (usedSlots (stop_session st sid0).1).elem sess0.slot with
      | true => exact absurd (by simpa using hc) hfree
      | false =>
        rw [show ((usedSlots (stop_session st sid0).1).contains sess0.slot) =
          (usedSlots (stop_session st sid0).1).elem sess0.slot from rfl, hc]
        rfl
    · intro t ht
      have hm2 := hkeep t ht
      show (!(usedSlots (stop_session st sid0).1).contains t) = false
      rw [show ((usedSlots (stop_session st sid0).1).contains t) =
        (usedSlots (stop_session st sid0).1).elem t from rfl,
        List.elem_eq_true_of_mem hm2]
      rfl

/-! ### Editing busy-flag lemmas (C5) -/

theorem assert_busy (s : EditingSession)
    (hbusy : s.executing = true ∨ s.navigating = true) :
    assert_session_command_ready s = some (.conflict (busyDetail s)) := by
  unfold assert_session_command_ready busyDetail
  cases hx : s.executing with
  | true => rfl
  | false =>
    cases hy : s.navigating with
    | true => rfl
    | false =>
      rw [hx] at hbusy
      rw [hy] at hbusy
      rcases hbusy with h | h <;> cases h

theorem navigate_step_busy (s : EditingSession) (url : String) (gf : Bool)
    (hbusy : s.executing = true ∨ s.navigating = true) :
    navigate_step s url gf = (s, .conflict (busyDetail s), []) := by
  unfold navigate_step busyDetail
  cases hx : s.executing with
  | true => rfl
  | false =>
    cases hy : s.navigating with
    | true => rfl
    | false =>
      rw [hx] at hbusy
      rw [hy] at hbusy
      rcases hbusy with h | h <;> cases h

theorem execute_login_start_busy (s : EditingSession)
    (hbusy : s.executing = true ∨ s.navigating = true) :
    execute_login_start s = (s, .conflict (busyDetail s), []) := by
  unfold execute_login_start busyDetail
  cases hx : s.executing with
  | true => rfl
  | false =>
    cases hy : s.navigating with
    | true => rfl
    | false =>
      rw [hx] at hbusy
      rw [hy] at hbusy
      rcases hbusy with h | h <;> cases h

/-- C5: while an editing session's `executing` or `navigating` flag is
set, every page-mutating command (mode change, field update, focus,
selector test, fill, navigation, login execution) is rejected with a
conflict and leaves the session unchanged with no page effect, while the
read-only `read_field_value` still succeeds; once both flags are
cleared, the same commands are accepted. -/
theorem busy_flags_reject_mutations (s : EditingSession) (mode : String)
    (flds : List (List (String × String))) (idx : Int) (v sel url : String)
    (gf : Bool) (hm : mode = "select" ∨ mode = "add" ∨ mode = "remove") :
    (s.executing = true ∨ s.navigating = true →
      set_mode s mode = (s, .conflict (busyDetail s), []) ∧
      update_fields s flds = (s, .conflict (busyDetail s), []) ∧
      focus_field s idx = (s, .conflict (busyDetail s), []) ∧
      test_selector s sel = (s, .conflict (busyDetail s), []) ∧
      fill_field s idx v = (s, .conflict (busyDetail s), []) ∧
      navigate_step s url gf = (s, .conflict (busyDetail s), []) ∧
      execute_login_start s = (s, .conflict (busyDetail s), [])) ∧
    read_field_value s idx = (s, .ok, [.readFieldValue idx]) ∧
    (s.executing = false → s.navigating = false →
      (set_mode s mode).2.1 = .ok ∧
      (update_fields s flds).2.1 = .ok ∧
      (focus_field s idx).2.1 = .ok ∧
      (test_selector s sel).2.1 = .ok ∧
      (fill_field s idx v).2.1 = .ok ∧
      (navigate_step s url false).2.1 = .ok ∧
      (execute_login_start s).2.1 = .ok) := by
  have hvalid : ¬ ¬ (mode = "select" ∨ mode = "add" ∨ mode = "remove") :=
    not_not_intro hm
  refine ⟨?_, rfl, ?_⟩
  · intro hbusy
    have hready := assert_busy s hbusy
    refine ⟨?_, ?_, ?_, ?_, ?_,
      navigate_step_busy s url gf hbusy, execute_login_start_busy s hbusy⟩
    · unfold set_mode
      rw [if_neg hvalid, hready]
    · unfold update_fields
      rw [hready]
    · unfold focus_field
      rw [hready]
    · unfold test_selector
      rw [hready]
    · unfold fill_field
      rw [hready]
  · intro hex hnv
    have hready0 : assert_session_command_ready s = none := by
      unfold assert_session_command_ready
      rw [hex, hnv]
      rfl
    refine ⟨?_, ?_, ?_, ?_, ?_, ?_, ?_⟩
    · unfold set_mode
      rw [if_neg hvalid, hready0]
    · unfold update_fields
      rw [hready0]
    · unfold focus_field
      rw [hready0]
    · unfold test_selector
      rw [hready0]
    · unfold fill_field
      rw [hready0]
    · unfold navigate_step
      rw [hex, hnv]
      rfl
    · unfold execute_login_start
      rw [hex, hnv]
      rfl

/-- Witness for C5 at concrete busy and idle sessions. -/
theorem busy_flags_reject_mutations_witness :
    set_mode ⟨true, false, "select", []⟩ "add" =
      (⟨true, false, "select", []⟩,
       .conflict (busyDetail ⟨true, false, "select", []⟩), []) ∧
    read_field_value ⟨true, false, "select", []⟩ 0 =
      (⟨true, false, "select", []⟩, .ok, [.readFieldValue 0]) ∧
    (set_mode ⟨false, false, "select", []⟩ "add").2.1 = .ok := by
  have H := busy_flags_reject_mutations ⟨true, false, "select", []⟩ "add"
    [] 0 "v" "#s" "http-url" false (by decide)
  have H2 := busy_flags_reject_mutations ⟨false, false, "select", []⟩ "add"
    [] 0 "v" "#s" "http-url" false (by decide)
  exact ⟨(H.1 (Or.inl rfl)).1, H.2.1, (H2.2.2 rfl rfl).1⟩

/-- Witness for C4: with all twenty slots held a new reservation fails
with the exhaustion error, and after stopping the session holding slot
3 the freed slot 3 is the one found free again. -/
theorem reserve_lowest_slot_exhaustion_reuse_witness :
    (reserve_display c4FullPool "e" "fresh" 55 false false =
      .error "No free VNC slots") ∧
    find_free_slot (stop_session c4FullPool "d").1 = some 3 := by
  have H := reserve_lowest_slot_exhaustion_reuse c4FullPool "e" "fresh" 55
  refine ⟨H.2.1 (by decide) false false, ?_⟩
  exact H.2.2 "d"
    { execution_id := "e", slot := 3, display := "disp", vnc_port := 6002,
      status := "reserved", resume_fired := false, xvfb_proc := some 103,
      x11vnc_proc := none, vnc_token := none }
    (by decide) (by decide) (by decide) (by decide) (by decide)

/-! ### Branch equations for the step loop -/

theorem runSteps_nav (env : RunEnv) (i : Nat) (fd : FormDefinition)
    (fields : List FormFieldRec) (w : StepWorld) (rest) (log) (tr)
    (msg : String) (h : w.nav_error = some msg) :
    runSteps env i ((fd, fields, w) :: rest) log tr =
      (.raised msg, log, tr ++ [.goto fd.page_url]) := by
  rw [runSteps, h]

theorem runSteps_noform (env : RunEnv) (i : Nat) (fd : FormDefinition)
    (fields : List FormFieldRec) (w : StepWorld) (rest) (log) (tr)
    (hnav : w.nav_error = none)
    (hsel : (fd.form_selector.isSome && !w.selector_found) = true) :
    runSteps env i ((fd, fields, w) :: rest) log tr =
      (.raised (formNotFoundMsg fd),
       log ++ [{ (stepEntry0 i fd) with
                 status := "form_not_found",
                 error := some (formNotFoundMsg fd) }],
       tr ++ [.goto fd.page_url]) := by
  rw [runSteps, hnav]
  simp only [hsel]
  rfl

theorem runSteps_timeout (env : RunEnv) (i : Nat) (fd : FormDefinition)
    (fields : List FormFieldRec) (w : StepWorld) (rest) (log) (tr)
    (hnav : w.nav_error = none)
    (hsel : (fd.form_selector.isSome && !w.selector_found) = false)
    (hres : (stepPause fd w (stepFill env i fd fields w).1 log).resumed = false) :
    runSteps env i ((fd, fields, w) :: rest) log tr =
      (.timedOut, (stepPause fd w (stepFill env i fd fields w).1 log).log,
       tr ++ [.goto fd.page_url] ++ (stepFill env i fd fields w).2 ++
         (stepPause fd w (stepFill env i fd fields w).1 log).ops) := by
  rw [runSteps, hnav]
  simp only [hsel]
  rw [if_neg (by simp), if_pos hres]

theorem runSteps_dry (env : RunEnv) (i : Nat) (fd : FormDefinition)
    (fields : List FormFieldRec) (w : StepWorld) (rest) (log) (tr)
    (hnav : w.nav_error = none)
    (hsel : (fd.form_selector.isSome && !w.selector_found) = false)
    (hres : (stepPause fd w (stepFill env i fd fields w).1 log).resumed = true)
    (hdry : (env.is_dry_run && rest.isEmpty) = true) :
    runSteps env i ((fd, fields, w) :: rest) log tr =
      (.dryRunDone,
       syncLast (stepPause fd w (stepFill env i fd fields w).1 log).log
           { (stepPause fd w (stepFill env i fd fields w).1 log).entry with
             status := "dry_run_complete" } ++
         [{ (stepPause fd w (stepFill env i fd fields w).1 log).entry with
            status := "dry_run_complete" }],
       tr ++ [.goto fd.page_url] ++ (stepFill env i fd fields w).2 ++
         (stepPause fd w (stepFill env i fd fields w).1 log).ops ++
         [.screenshot (env.execution_id ++ "_dryrun.png"), .browserClose]) := by
  rw [runSteps, hnav]
  simp only [hsel]
  rw [if_neg (by simp), if_neg (by simp [hres]), if_pos hdry]

theorem runSteps_submit (env : RunEnv) (i : Nat) (fd : FormDefinition)
    (fields : List FormFieldRec) (w : StepWorld) (rest) (log) (tr)
    (hnav : w.nav_error = none)
    (hsel : (fd.form_selector.isSome && !w.selector_found) = false)
    (hres : (stepPause fd w (stepFill env i fd fields w).1 log).resumed = true)
    (hdry : (env.is_dry_run && rest.isEmpty) = false) :
    runSteps env i ((fd, fields, w) :: rest) log tr =
      runSteps env (i + 1) rest
        (commitEntry (stepPause fd w (stepFill env i fd fields w).1 log).log
          (stepSubmitEntry w
            (stepPause fd w (stepFill env i fd fields w).1 log).entry))
        (tr ++ [.goto fd.page_url] ++ (stepFill env i fd fields w).2 ++
          (stepPause fd w (stepFill env i fd fields w).1 log).ops ++
          stepSubmitOps i fd w) := by
  rw [runSteps, hnav]
  simp only [hsel]
  rw [if_neg (by simp), if_neg (by simp [hres]), if_neg (by simp [hdry])]

/-! ### Guaranteed VNC cleanup (C1) -/

theorem fillOp_ne_stop (ud : String) (f : FormFieldRec) (v : String) :
    fillOp ud f v ≠ .stopSession := by
  unfold fillOp
  split_ifs <;> simp

theorem count_stop_append_zero (tr ops : List EffectOp)
    (h : ops.count EffectOp.stopSession = 0) :
    (tr ++ ops).count EffectOp.stopSession = tr.count EffectOp.stopSession := by
  rw [List.count_append, h, Nat.add_zero]

theorem fillFieldsAux_count_stop (key : Option String)
    (decrypt : String → String → Option String) (ud : String)
    (fe : Nat → Option String) :
    ∀ (fields : List FormFieldRec) (j : Nat) (e : StepEntry)
      (tr : List EffectOp),
      ((fillFieldsAux key decrypt ud fe j fields e tr).2).count .stopSession =
        tr.count .stopSession := by
  intro fields
  induction fields with
  | nil => intro j e tr; rfl
  | cons f rest ih =>
    intro j e tr
    rw [fillFieldsAux]
    cases f.preset_value with
    | none => exact ih (j + 1) e tr
    | some raw =>
      cases fe j with
      | some msg => exact ih (j + 1) _ tr
      | none =>
        rw [ih (j + 1) e _]
        refine count_stop_append_zero tr _ ?_
        have hz : EffectOp.stopSession ∉
            [fillOp ud f (resolveValue key decrypt f raw)] := by
          intro hx
          simp only [List.mem_singleton] at hx
          exact fillOp_ne_stop ud f _ hx.symm
        exact List.count_eq_zero.mpr hz

theorem stepFill_count_stop (env : RunEnv) (i : Nat) (fd : FormDefinition)
    (fields : List FormFieldRec) (w : StepWorld) :
    ((stepFill env i fd fields w).2).count EffectOp.stopSession = 0 := by
  unfold stepFill
  rw [fillFieldsAux_count_stop]
  rfl

theorem stepPause_count_stop (fd : FormDefinition) (w : StepWorld)
    (e : StepEntry) (log : List StepEntry) :
    ((stepPause fd w e log).ops).count EffectOp.stopSession = 0 := by
  unfold stepPause vncPauseModel
  split_ifs <;> rfl

theorem stepSubmitOps_count_stop (i : Nat) (fd : FormDefinition)
    (w : StepWorld) :
    (stepSubmitOps i fd w).count EffectOp.stopSession = 0 := by
  unfold stepSubmitOps
  cases w.submit_error <;> rfl

theorem runSteps_count_stop (env : RunEnv) :
    ∀ (steps : List (FormDefinition × List FormFieldRec × StepWorld))
      (i : Nat) (log : List StepEntry) (tr : List EffectOp),
      ((runSteps env i steps log tr).2.2).count .stopSession =
        tr.count .stopSession := by
  intro steps
  induction steps with
  | nil => intro i log tr; rfl
  | cons s rest ih =>
    intro i log tr
    obtain ⟨fd, fields, w⟩ := s
    have hgoto : ([EffectOp.goto fd.page_url]).count EffectOp.stopSession = 0 :=
      List.count_eq_zero.mpr (by simp)
    cases hnav : w.nav_error with
    | some msg =>
      rw [runSteps_nav env i fd fields w rest log tr msg hnav]
      exact count_stop_append_zero tr _ hgoto
    | none =>
      cases hsel : (fd.form_selector.isSome && !w.selector_found) with
      | true =>
        rw [runSteps_noform env i fd fields w rest log tr hnav hsel]
        exact count_stop_append_zero tr _ hgoto
      | false =>
        cases hres : (stepPause fd w (stepFill env i fd fields w).1 log).resumed with
        | false =>
          rw [runSteps_timeout env i fd fields w rest log tr hnav hsel hres]
          rw [count_stop_append_zero _ _ (stepPause_count_stop fd w _ log),
            count_stop_append_zero _ _ (stepFill_count_stop env i fd fields w),
            count_stop_append_zero tr _ hgoto]
        | true =>
          cases hdry : (env.is_dry_run && rest.isEmpty) with
          | true =>
            rw [runSteps_dry env i fd fields w rest log tr hnav hsel hres hdry]
            rw [count_stop_append_zero _ _ (by rfl),
              count_stop_append_zero _ _ (stepPause_count_stop fd w _ log),
              count_stop_append_zero _ _ (stepFill_count_stop env i fd fields w),
              count_stop_append_zero tr _ hgoto]
          | false =>
            rw [runSteps_submit env i fd fields w rest log tr hnav hsel hres hdry]
            rw [ih]
            rw [count_stop_append_zero _ _ (stepSubmitOps_count_stop i fd w),
              count_stop_append_zero _ _ (stepPause_count_stop fd w _ log),
              count_stop_append_zero _ _ (stepFill_count_stop env i fd fields w),
              count_stop_append_zero tr _ hgoto]

/-- C1: whenever a display session was reserved for a run (some step
carries the human-breakpoint flag and the reservation succeeded),
`stop_session` is invoked exactly once by the time `execute` returns, on
every exit path — success, dry-run completion, form-not-found failure,
VNC-resume timeout, and any exception raised during the run. -/
theorem count_stop_sandwich (X : List EffectOp)
    (h : X.count EffectOp.stopSession = 0) :
    ([EffectOp.reserveDisplay] ++ X ++ [EffectOp.stopSession]).count
      EffectOp.stopSession = 1 := by
  rw [List.count_append, List.count_append, h]
  rfl

theorem count_stop_sandwich2 (X Y : List EffectOp)
    (hX : X.count EffectOp.stopSession = 0)
    (hY : Y.count EffectOp.stopSession = 0) :
    ([EffectOp.reserveDisplay] ++ X ++ Y ++ [EffectOp.stopSession]).count
      EffectOp.stopSession = 1 := by
  rw [List.count_append, List.count_append, List.count_append, hX, hY]
  rfl

theorem vnc_stop_exactly_once (env : RunEnv) (hv : needsVnc env = true)
    (hr : env.reserve_ok = true) :
    ((executeModel env).trace).count .stopSession = 1 := by
  unfold executeModel
  rw [hv, hr]
  cases hl : env.launch_error with
  | some msg => rfl
  | none =>
    rcases hout : runSteps env 0 env.steps [] [] with ⟨ex, lg, tv⟩
    have hzero : tv.count EffectOp.stopSession = 0 := by
      have h0 := runSteps_count_stop env env.steps 0 [] []
      rw [hout] at h0
      exact h0
    cases ex with
    | raised msg => exact count_stop_sandwich tv hzero
    | timedOut => exact count_stop_sandwich tv hzero
    | dryRunDone => exact count_stop_sandwich tv hzero
    | completed =>
      refine count_stop_sandwich2 tv _ hzero ?_
      exact List.count_eq_zero.mpr (by
        intro hx
        simp only [List.mem_cons, List.not_mem_nil, or_false] at hx
        rcases hx with hx | hx <;> exact EffectOp.noConfusion hx)

/-- Witness for C1: a run with a breakpoint step that times out still
stops its reserved session exactly once. -/
theorem vnc_stop_exactly_once_witness :
    ((executeModel
      { execution_id := "E", is_dry_run := false, encryption_key := none,
        decrypt := fun _ _ => none, upload_dir := "/up",
        launch_error := none, reserve_ok := true,
        steps := [(⟨1, 1, none, "http-url", "login", none, "#s", true⟩,
                   [], ⟨none, true, fun _ => none, false, none⟩)] }).trace).count
      .stopSession = 1 :=
  vnc_stop_exactly_once
    { execution_id := "E", is_dry_run := false, encryption_key := none,
      decrypt := fun _ _ => none, upload_dir := "/up",
      launch_error := none, reserve_ok := true,
      steps := [(⟨1, 1, none, "http-url", "login", none, "#s", true⟩,
                 [], ⟨none, true, fun _ => none, false, none⟩)] }
    (by rfl) (by rfl)

/-! ### Step-log entries (C3) -/

/-- C3 fails on the code: on a dry run whose final step has a human
breakpoint that pauses and resumes, the dry-run branch (line 380)
appends the step dict unconditionally, although `_vnc_pause` already
appended the same dict — unlike the submit path, it carries no identity
guard (lines 417-419).  The persisted log then holds two entries for
that step (both aliases of the same dict, so both show the final
status), violating the exactly-one-entry invariant the code's own
regression test documents. -/
theorem dry_run_breakpoint_duplicates_entry :
    ((executeModel c3Env).record.steps_log).map (·.stepIdx) = [0, 0] ∧
    ((executeModel c3Env).record.steps_log).map (·.status) =
      ["dry_run_complete", "dry_run_complete"] := by
  constructor <;> rfl

/-! ### Submit-click lemmas (C6) -/

theorem fillOp_ne_click (ud : String) (f : FormFieldRec) (v : String)
    (k : Nat) (sel : String) : fillOp ud f v ≠ .clickSubmit k sel := by
  unfold fillOp
  split_ifs <;> simp

theorem fillFieldsAux_click_mem (key : Option String)
    (decrypt : String → String → Option String) (ud : String)
    (fe : Nat → Option String) :
    ∀ (fields : List FormFieldRec) (j : Nat) (e : StepEntry)
      (tr : List EffectOp) (k : Nat) (sel : String),
      EffectOp.clickSubmit k sel ∈ (fillFieldsAux key decrypt ud fe j fields e tr).2 →
      EffectOp.clickSubmit k sel ∈ tr := by
  intro fields
  induction fields with
  | nil => intro j e tr k sel h; exact h
  | cons f rest ih =>
    intro j e tr k sel h
    rw [fillFieldsAux] at h
    cases hp : f.preset_value with
    | none =>
      rw [hp] at h
      exact ih (j + 1) e tr k sel h
    | some raw =>
      rw [hp] at h
      cases hfe : fe j with
      | some msg =>
        rw [hfe] at h
        exact ih (j + 1) _ tr k sel h
      | none =>
        rw [hfe] at h
        have h2 := ih (j + 1) e _ k sel h
        rcases List.mem_append.mp h2 with h3 | h3
        · exact h3
        · simp only [List.mem_singleton] at h3
          exact absurd h3.symm (fillOp_ne_click ud f _ k sel)

theorem stepFill_no_click (env : RunEnv) (i : Nat) (fd : FormDefinition)
    (fields : List FormFieldRec) (w : StepWorld) (k : Nat) (sel : String) :
    EffectOp.clickSubmit k sel ∉ (stepFill env i fd fields w).2 := by
  intro h
  have h2 := fillFieldsAux_click_mem env.encryption_key env.decrypt
    env.upload_dir w.fill_error fields 0 (stepEntry0 i fd) [] k sel h
  exact List.not_mem_nil _ h2

theorem stepPause_no_click (fd : FormDefinition) (w : StepWorld)
    (e : StepEntry) (log : List StepEntry) (k : Nat) (sel : String) :
    EffectOp.clickSubmit k sel ∉ (stepPause fd w e log).ops := by
  unfold stepPause vncPauseModel
  split_ifs <;> simp

theorem runSteps_trace_prefix (env : RunEnv) :
    ∀ (steps : List (FormDefinition × List FormFieldRec × StepWorld))
      (i : Nat) (log : List StepEntry) (tr : List EffectOp),
      ∃ ext, (runSteps env i steps log tr).2.2 = tr ++ ext := by
  intro steps
  induction steps with
  | nil => intro i log tr; exact ⟨[], (List.append_nil tr).symm⟩
  | cons s rest ih =>
    intro i log tr
    obtain ⟨fd, fields, w⟩ := s
    cases hnav : w.nav_error with
    | some msg =>
      rw [runSteps_nav env i fd fields w rest log tr msg hnav]
      exact ⟨[.goto fd.page_url], rfl⟩
    | none =>
      cases hsel : (fd.form_selector.isSome && !w.selector_found) with
      | true =>
        rw [runSteps_noform env i fd fields w rest log tr hnav hsel]
        exact ⟨[.goto fd.page_url], rfl⟩
      | false =>
        cases hres : (stepPause fd w (stepFill env i fd fields w).1 log).resumed with
        | false =>
          rw [runSteps_timeout env i fd fields w rest log tr hnav hsel hres]
          refine ⟨[.goto fd.page_url] ++ (stepFill env i fd fields w).2 ++
            (stepPause fd w (stepFill env i fd fields w).1 log).ops, ?_⟩
          simp [List.append_assoc]
        | true =>
          cases hdry : (env.is_dry_run && rest.isEmpty) with
          | true =>
            rw [runSteps_dry env i fd fields w rest log tr hnav hsel hres hdry]
            refine ⟨[.goto fd.page_url] ++ (stepFill env i fd fields w).2 ++
              (stepPause fd w (stepFill env i fd fields w).1 log).ops ++
              [.screenshot (env.execution_id ++ "_dryrun.png"), .browserClose], ?_⟩
            simp [List.append_assoc]
          | false =>
            rw [runSteps_submit env i fd fields w rest log tr hnav hsel hres hdry]
            obtain ⟨ext, hext⟩ := ih (i + 1)
              (commitEntry (stepPause fd w (stepFill env i fd fields w).1 log).log
                (stepSubmitEntry w
                  (stepPause fd w (stepFill env i fd fields w).1 log).entry))
              (tr ++ [.goto fd.page_url] ++ (stepFill env i fd fields w).2 ++
                (stepPause fd w (stepFill env i fd fields w).1 log).ops ++
                stepSubmitOps i fd w)
            refine ⟨[.goto fd.page_url] ++ (stepFill env i fd fields w).2 ++
              (stepPause fd w (stepFill env i fd fields w).1 log).ops ++
              stepSubmitOps i fd w ++ ext, ?_⟩
            rw [hext]
            simp [List.append_assoc]

/-- In a dry run no submit click is ever emitted for the final step:
every click the loop adds carries an index with at least one later step,
whatever the other outcomes are. -/
theorem runSteps_dry_click_bound (env : RunEnv)
    (hdryrun : env.is_dry_run = true) :
    ∀ (steps : List (FormDefinition × List FormFieldRec × StepWorld))
      (i : Nat) (log : List StepEntry) (tr : List EffectOp)
      (k : Nat) (sel : String),
      EffectOp.clickSubmit k sel ∈ (runSteps env i steps log tr).2.2 →
      EffectOp.clickSubmit k sel ∈ tr ∨ (i ≤ k ∧ k + 1 < i + steps.length) := by
  intro steps
  induction steps with
  | nil => intro i log tr k sel h; exact Or.inl h
  | cons s rest ih =>
    intro i log tr k sel h
    obtain ⟨fd, fields, w⟩ := s
    cases hnav : w.nav_error with
    | some msg =>
      rw [runSteps_nav env i fd fields w rest log tr msg hnav] at h
      rcases List.mem_append.mp h with h2 | h2
      · exact Or.inl h2
      · simp only [List.mem_singleton] at h2
        exact absurd h2 (by simp)
    | none =>
      cases hsel : (fd.form_selector.isSome && !w.selector_found) with
      | true =>
        rw [runSteps_noform env i fd fields w rest log tr hnav hsel] at h
        rcases List.mem_append.mp h with h2 | h2
        · exact Or.inl h2
        · simp only [List.mem_singleton] at h2
          exact absurd h2 (by simp)
      | false =>
        cases hres : (stepPause fd w (stepFill env i fd fields w).1 log).resumed with
        | false =>
          rw [runSteps_timeout env i fd fields w rest log tr hnav hsel hres] at h
          rcases List.mem_append.mp h with h2 | h2
          · rcases List.mem_append.mp h2 with h3 | h3
            · rcases List.mem_append.mp h3 with h4 | h4
              · exact Or.inl h4
              · simp only [List.mem_singleton] at h4
                exact absurd h4 (by simp)
            · exact absurd h3 (stepFill_no_click env i fd fields w k sel)
          · exact absurd h2 (stepPause_no_click fd w _ log k sel)
        | true =>
          cases hdry : (env.is_dry_run && rest.isEmpty) with
          | true =>
            rw [runSteps_dry env i fd fields w rest log tr hnav hsel hres hdry] at h
            rcases List.mem_append.mp h with h2 | h2
            · rcases List.mem_append.mp h2 with h3 | h3
              · rcases List.mem_append.mp h3 with h4 | h4
                · rcases List.mem_append.mp h4 with h5 | h5
                  · exact Or.inl h5
                  · simp only [List.mem_singleton] at h5
                    exact absurd h5 (by simp)
                · exact absurd h4 (stepFill_no_click env i fd fields w k sel)
              · exact absurd h3 (stepPause_no_click fd w _ log k sel)
            · simp only [List.mem_cons, List.not_mem_nil, or_false] at h2
              rcases h2 with h3 | h3 <;> exact EffectOp.noConfusion h3
          | false =>
            have hne : rest ≠ [] := by
              rw [hdryrun, Bool.true_and] at hdry
              intro hnil
              rw [hnil] at hdry
              cases hdry
            have hlen : 0 < rest.length := List.length_pos.mpr hne
            rw [runSteps_submit env i fd fields w rest log tr hnav hsel hres hdry] at h
            rcases ih (i + 1) _ _ k sel h with h2 | h2
            · rcases List.mem_append.mp h2 with h3 | h3
              · rcases List.mem_append.mp h3 with h4 | h4
                · rcases List.mem_append.mp h4 with h5 | h5
                  · rcases List.mem_append.mp h5 with h6 | h6
                    · exact Or.inl h6
                    · simp only [List.mem_singleton] at h6
                      exact absurd h6 (by simp)
                  · exact absurd h5 (stepFill_no_click env i fd fields w k sel)
                · exact absurd h4 (stepPause_no_click fd w _ log k sel)
              · unfold stepSubmitOps at h3
                cases hsub : w.submit_error with
                | none =>
                  rw [hsub] at h3
                  simp only [List.mem_singleton] at h3
                  have hk : k = i := by
                    injection h3 with h7 h8
                  refine Or.inr ⟨by omega, ?_⟩
                  simp only [List.length_cons]
                  omega
                | some msg =>
                  rw [hsub] at h3
                  exact absurd h3 (List.not_mem_nil _)
            · refine Or.inr ⟨by omega, ?_⟩
              simp only [List.length_cons]
              omega

/-- Under a cooperating world, `stepPause` always resumes. -/
theorem stepPause_resumed_of_benign (fd : FormDefinition) (w : StepWorld)
    (e : StepEntry) (log : List StepEntry)
    (hbp : fd.human_breakpoint = true → w.pause_resumed = true) :
    (stepPause fd w e log).resumed = true := by
  unfold stepPause
  cases hb : fd.human_breakpoint with
  | false => rfl
  | true =>
    unfold vncPauseModel
    rw [hbp hb]
    rfl

/-- There is no form-not-found abort on a benign step. -/
theorem selector_ok_of_benign (fd : FormDefinition) (w : StepWorld)
    (hfound : fd.form_selector.isSome = true → w.selector_found = true) :
    (fd.form_selector.isSome && !w.selector_found) = false := by
  cases hfs : fd.form_selector.isSome with
  | false => rfl
  | true =>
    rw [hfound hfs, Bool.true_and]
    rfl

/-- A run whose every step is benign completes: a dry run exits through
the dry-run branch, a real run through the success path, and the submit
control is clicked for exactly the steps the mode allows. -/
theorem runSteps_benign (env : RunEnv) :
    ∀ (steps : List (FormDefinition × List FormFieldRec × StepWorld))
      (i : Nat) (log : List StepEntry) (tr : List EffectOp),
      (∀ x ∈ steps, benignStep x) →
      (env.is_dry_run = true → steps ≠ [] →
        (runSteps env i steps log tr).1 = .dryRunDone) ∧
      (env.is_dry_run = false →
        (runSteps env i steps log tr).1 = .completed) ∧
      (∀ j (hj : j < steps.length),
        ¬ (env.is_dry_run = true ∧ j = steps.length - 1) →
        EffectOp.clickSubmit (i + j) ((steps.get ⟨j, hj⟩).1.submit_selector) ∈
          (runSteps env i steps log tr).2.2) := by
  intro steps
  induction steps with
  | nil =>
    intro i log tr hb
    refine ⟨fun _ hne => absurd rfl hne, fun _ => rfl, ?_⟩
    intro j hj
    exact absurd hj (Nat.not_lt_zero j)
  | cons s rest ih =>
    intro i log tr hb
    obtain ⟨fd, fields, w⟩ := s
    obtain ⟨hnav, hfound, hbp, hsub⟩ := hb (fd, fields, w) (List.mem_cons_self _ _)
    have hsel := selector_ok_of_benign fd w hfound
    have hres := stepPause_resumed_of_benign fd w
      (stepFill env i fd fields w).1 log hbp
    cases hrest : rest.isEmpty with
    | true =>
      have hrnil : rest = [] := List.isEmpty_iff.mp hrest
      subst hrnil
      refine ⟨?_, ?_, ?_⟩
      · intro hdry _
        have hd : (env.is_dry_run && ([] : List (FormDefinition × List FormFieldRec × StepWorld)).isEmpty) = true := by
          rw [hdry]; rfl
        rw [runSteps_dry env i fd fields w [] log tr hnav hsel hres hd]
      · intro hdry
        have hd : (env.is_dry_run && ([] : List (FormDefinition × List FormFieldRec × StepWorld)).isEmpty) = false := by
          rw [hdry]; rfl
        rw [runSteps_submit env i fd fields w [] log tr hnav hsel hres hd]
        rfl
      · intro j hj hnotlast
        simp only [List.length_cons, List.length_nil] at hj
        interval_cases j
        have hdry : env.is_dry_run = false := by
          cases hd : env.is_dry_run with
          | false => rfl
          | true => exact absurd ⟨hd, rfl⟩ hnotlast
        have hd : (env.is_dry_run && ([] : List (FormDefinition × List FormFieldRec × StepWorld)).isEmpty) = false := by
          rw [hdry]; rfl
        rw [runSteps_submit env i fd fields w [] log tr hnav hsel hres hd]
        show _ ∈ (runSteps env (i + 1) [] _ _).2.2
        rw [runSteps]
        refine List.mem_append.mpr (Or.inr ?_)
        unfold stepSubmitOps
        rw [hsub]
        simp only [List.mem_singleton, Nat.add_zero]
        rfl
    | false =>
      have hd : (env.is_dry_run && rest.isEmpty) = false := by
        rw [hrest, Bool.and_false]
      rw [runSteps_submit env i fd fields w rest log tr hnav hsel hres hd]
      obtain ⟨ihd, ihc, ihm⟩ := ih (i + 1)
        (commitEntry (stepPause fd w (stepFill env i fd fields w).1 log).log
          (stepSubmitEntry w
            (stepPause fd w (stepFill env i fd fields w).1 log).entry))
        (tr ++ [.goto fd.page_url] ++ (stepFill env i fd fields w).2 ++
          (stepPause fd w (stepFill env i fd fields w).1 log).ops ++
          stepSubmitOps i fd w)
        (fun x hx => hb x (List.mem_cons_of_mem _ hx))
      have hrne : rest ≠ [] := by
        intro hnil
        rw [hnil] at hrest
        cases hrest
      refine ⟨fun hdry _ => ihd hdry hrne, ihc, ?_⟩
      intro j hj hnotlast
      cases j with
      | zero =>
        obtain ⟨ext, hext⟩ := runSteps_trace_prefix env rest (i + 1) _ _
        rw [hext]
        refine List.mem_append.mpr (Or.inl ?_)
        refine List.mem_append.mpr (Or.inr ?_)
        unfold stepSubmitOps
        rw [hsub]
        simp only [List.mem_singleton, Nat.add_zero]
        rfl
      | succ j0 =>
        simp only [List.length_cons] at hj
        have hj0 : j0 < rest.length := Nat.lt_of_succ_lt_succ hj
        have hnot0 : ¬ (env.is_dry_run = true ∧ j0 = rest.length - 1) := by
          rintro ⟨hdry, hlast⟩
          refine hnotlast ⟨hdry, ?_⟩
          simp only [List.length_cons]
          have : 0 < rest.length := List.length_pos.mpr hrne
          omega
        have := ihm j0 hj0 hnot0
        have harith : i + 1 + j0 = i + (j0 + 1) := by omega
        rw [harith] at this
        exact this

/-- C6: For every dry run of a multi-step task with a cooperating
world, the submit control is clicked on every non-final step but never
on the final step, the run completes with status `dry_run_ok` and
records a screenshot reference; for non-dry runs the submit control is
clicked on every step including the last. -/
theorem dry_run_submit_policy (env : RunEnv)
    (hb : ∀ x ∈ env.steps, benignStep x)
    (hl : env.launch_error = none) (hr : env.reserve_ok = true)
    (hn : env.steps ≠ []) :
    (env.is_dry_run = true →
      (executeModel env).record.status = "dry_run_ok" ∧
      (executeModel env).record.screenshot_path =
        some (env.execution_id ++ "_dryrun.png") ∧
      (∀ k sel, EffectOp.clickSubmit k sel ∈ (executeModel env).trace →
        k + 1 < env.steps.length) ∧
      (∀ j (hj : j < env.steps.length), j + 1 < env.steps.length →
        EffectOp.clickSubmit j ((env.steps.get ⟨j, hj⟩).1.submit_selector) ∈
          (executeModel env).trace)) ∧
    (env.is_dry_run = false →
      (executeModel env).record.status = "success" ∧
      ∀ j (hj : j < env.steps.length),
        EffectOp.clickSubmit j ((env.steps.get ⟨j, hj⟩).1.submit_selector) ∈
          (executeModel env).trace) := by
  have hcond : (needsVnc env && !env.reserve_ok) = false := by
    rw [hr]
    simp
  unfold executeModel
  rw [hcond, hl]
  rcases hout : runSteps env 0 env.steps [] [] with ⟨ex, lg, tv⟩
  obtain ⟨hdexit, hcexit, hclicks⟩ := runSteps_benign env env.steps 0 [] [] hb
  rw [hout] at hdexit hcexit hclicks
  constructor
  · intro hdry
    have hex : ex = .dryRunDone := hdexit hdry hn
    subst hex
    refine ⟨rfl, rfl, ?_, ?_⟩
    · intro k sel hmem
      have hintv : EffectOp.clickSubmit k sel ∈ tv := by
        rcases List.mem_append.mp hmem with h2 | h2
        · rcases List.mem_append.mp h2 with h3 | h3
          · cases hnv : needsVnc env with
            | true =>
              rw [hnv] at h3
              simp only [if_pos rfl, List.mem_singleton] at h3
              exact absurd h3 (by simp)
            | false =>
              rw [hnv] at h3
              exact absurd h3 (List.not_mem_nil _)
          · exact h3
        · cases hnv : needsVnc env with
          | true =>
            rw [hnv] at h2
            simp only [if_pos rfl, List.mem_singleton] at h2
            exact absurd h2 (by simp)
          | false =>
            rw [hnv] at h2
            exact absurd h2 (List.not_mem_nil _)
      have hbound := runSteps_dry_click_bound env hdry env.steps 0 [] [] k sel
        (by rw [hout]; exact hintv)
      rcases hbound with h | h
      · exact absurd h (List.not_mem_nil _)
      · omega
    · intro j hj hlt
      have hnotlast : ¬ (env.is_dry_run = true ∧ j = env.steps.length - 1) := by
        rintro ⟨_, hl2⟩
        omega
      have hmem := hclicks j hj hnotlast
      rw [Nat.zero_add] at hmem
      exact List.mem_append.mpr (Or.inl (List.mem_append.mpr (Or.inr hmem)))
  · intro hdry
    have hex : ex = .completed := hcexit hdry
    subst hex
    refine ⟨rfl, ?_⟩
    intro j hj
    have hnotlast : ¬ (env.is_dry_run = true ∧ j = env.steps.length - 1) := by
      rintro ⟨hd2, _⟩
      rw [hdry] at hd2
      cases hd2
    have hmem := hclicks j hj hnotlast
    rw [Nat.zero_add] at hmem
    exact List.mem_append.mpr (Or.inl (List.mem_append.mpr (Or.inl
      (List.mem_append.mpr (Or.inr hmem)))))

/-- Witness for C6 at a benign two-step dry run: step 1 is submitted,
the run ends `dry_run_ok` with a screenshot reference. -/
theorem dry_run_submit_policy_witness :
    (executeModel c6Env).record.status = "dry_run_ok" ∧
    (executeModel c6Env).record.screenshot_path = some "E6_dryrun.png" ∧
    EffectOp.clickSubmit 0 "#s1" ∈ (executeModel c6Env).trace := by
  have hb : ∀ x ∈ c6Env.steps, benignStep x := by
    intro x hx
    simp only [c6Env, List.mem_cons, List.not_mem_nil, or_false] at hx
    rcases hx with h | h <;> subst h <;>
      exact ⟨rfl, fun _ => rfl, fun _ => rfl, rfl⟩
  have H := (dry_run_submit_policy c6Env hb rfl rfl
    (List.cons_ne_nil _ _)).1 rfl
  exact ⟨H.1, H.2.1, H.2.2.2 0 (by decide) (by decide)⟩

/-! ### Step dependency resolver (C2) -/

theorem id_inj (ordered : List FormDefinition)
    (hids : (ordered.map (·.id)).Nodup) {x y : FormDefinition}
    (hx : x ∈ ordered) (hy : y ∈ ordered) (hxy : x.id = y.id) : x = y :=
  List.inj_on_of_nodup_map hids hx hy hxy

theorem find?_id_self (ordered : List FormDefinition)
    (hids : (ordered.map (·.id)).Nodup) (c : FormDefinition)
    (hc : c ∈ ordered) :
    ordered.find? (fun fd => fd.id == c.id) = some c := by
  induction ordered with
  | nil => cases hc
  | cons a rest ih =>
    have hids2 : a.id ∉ rest.map (·.id) ∧ (rest.map (·.id)).Nodup := by
      rw [List.map_cons, List.nodup_cons] at hids
      exact hids
    rcases List.mem_cons.mp hc with h | h
    · subst h
      rw [List.find?_cons]
      simp
    · have hane : (a.id == c.id) = false := by
        refine beq_false_of_ne ?_
        intro he
        have hmm : a.id ∈ rest.map (·.id) := by
          rw [he]
          exact List.mem_map.mpr ⟨c, h, rfl⟩
        exact hids2.1 hmm
      rw [List.find?_cons]
      simp only [hane]
      exact ih hids2.2 h

theorem indeg0_eq (ordered : List FormDefinition)
    (hids : (ordered.map (·.id)).Nodup) (c : FormDefinition)
    (hc : c ∈ ordered) : indeg0 ordered c.id = initIndeg c := by
  unfold indeg0
  rw [find?_id_self ordered hids c hc]

theorem initIndeg_eq_zero (c : FormDefinition) :
    initIndeg c = 0 ↔ c.depends_on_step_order = none := by
  unfold initIndeg
  cases c.depends_on_step_order <;> simp

theorem parentOf_mem (ordered : List FormDefinition) (c p : FormDefinition)
    (h : parentOf ordered c = some p) : p ∈ ordered := by
  unfold parentOf at h
  cases hd : c.depends_on_step_order with
  | none => rw [hd] at h; cases h
  | some dep =>
    rw [hd] at h
    exact List.mem_of_find?_eq_some h

theorem parentOf_none_of_no_dep (ordered : List FormDefinition)
    (c : FormDefinition) (hd : c.depends_on_step_order = none) :
    parentOf ordered c = none := by
  unfold parentOf
  rw [hd]

theorem parentOf_isSome_dep (ordered : List FormDefinition)
    (c p : FormDefinition) (h : parentOf ordered c = some p) :
    c.depends_on_step_order.isSome = true := by
  unfold parentOf at h
  cases hd : c.depends_on_step_order with
  | none => rw [hd] at h; cases h
  | some dep => rfl

theorem parentOf_of_valid (ordered : List FormDefinition)
    (hval : depsValid ordered = true) (c : FormDefinition) (hc : c ∈ ordered)
    (hdep : c.depends_on_step_order.isSome = true) :
    ∃ p, parentOf ordered c = some p ∧ p.id ≠ c.id ∧ p ∈ ordered := by
  unfold depsValid at hval
  rw [List.all_eq_true] at hval
  have hv := hval c hc
  cases hd : c.depends_on_step_order with
  | none => rw [hd] at hdep; cases hdep
  | some dep =>
    rw [hd] at hv
    have hv2 : (match ordered.find? (fun p => p.step_order == dep) with
        | none => false
        | some p => p.id != c.id) = true := hv
    cases hf : ordered.find? (fun p => p.step_order == dep) with
    | none => rw [hf] at hv2; cases hv2
    | some p =>
      rw [hf] at hv2
      refine ⟨p, ?_, bne_iff_ne.mp hv2, List.mem_of_find?_eq_some hf⟩
      unfold parentOf
      rw [hd]
      exact hf

theorem mem_initReady_iff (ordered : List FormDefinition)
    (hids : (ordered.map (·.id)).Nodup) (c : FormDefinition) :
    c ∈ initReady ordered ↔
      c ∈ ordered ∧ c.depends_on_step_order = none := by
  unfold initReady
  rw [List.mem_insertionSort, List.mem_filter]
  constructor
  · rintro ⟨hm, hz⟩
    refine ⟨hm, ?_⟩
    have hz2 : indeg0 ordered c.id = 0 := by simpa using hz
    rw [indeg0_eq ordered hids c hm] at hz2
    exact (initIndeg_eq_zero c).mp hz2
  · rintro ⟨hm, hd⟩
    refine ⟨hm, ?_⟩
    have hz2 : indeg0 ordered c.id = 0 := by
      rw [indeg0_eq ordered hids c hm]
      exact (initIndeg_eq_zero c).mpr hd
    simpa using hz2

theorem mem_childrenOf (ordered : List FormDefinition)
    (hids : (ordered.map (·.id)).Nodup) (cur : FormDefinition)
    (hcur : cur ∈ ordered) (c : FormDefinition) :
    c ∈ childrenOf ordered cur ↔
      c ∈ ordered ∧ parentOf ordered c = some cur := by
  unfold childrenOf
  rw [List.mem_insertionSort, List.mem_filter]
  constructor
  · rintro ⟨hm, hp⟩
    refine ⟨hm, ?_⟩
    cases hpo : parentOf ordered c with
    | none => rw [hpo] at hp; cases hp
    | some q =>
      rw [hpo] at hp
      have hq : q ∈ ordered := parentOf_mem ordered c q hpo
      have hqc : q = cur := id_inj ordered hids hq hcur (beq_iff_eq.mp hp)
      exact congrArg some hqc
  · rintro ⟨hm, hp⟩
    refine ⟨hm, ?_⟩
    rw [hp]
    simp

theorem childrenOf_ids_nodup (ordered : List FormDefinition)
    (hids : (ordered.map (·.id)).Nodup) (cur : FormDefinition) :
    ((childrenOf ordered cur).map (·.id)).Nodup := by
  unfold childrenOf
  have hperm := List.perm_insertionSort keyLE
    (ordered.filter (fun c =>
      match parentOf ordered c with
      | some q => q.id == cur.id
      | none => false))
  refine ((hperm.map (·.id)).nodup_iff).mpr ?_
  exact List.Nodup.sublist
    (List.Sublist.map (·.id) (List.filter_sublist ordered)) hids

theorem processChildren_spec :
    ∀ (children rest : List FormDefinition) (indeg : Nat → Int),
      ((children.map (·.id)).Nodup) →
      (∀ c ∈ children, indeg c.id = 1) →
      processChildren children rest indeg =
        (rest ++ children,
         fun i2 => if i2 ∈ children.map (·.id) then 0 else indeg i2) := by
  intro children
  induction children with
  | nil =>
    intro rest indeg _ _
    unfold processChildren
    rw [List.foldl_nil]
    refine Prod.ext ?_ ?_
    · exact (List.append_nil rest).symm
    · funext i2
      simp
  | cons c cs ih =>
    intro rest indeg hnd h1
    have hnd2 : c.id ∉ cs.map (·.id) ∧ (cs.map (·.id)).Nodup := by
      rw [List.map_cons, List.nodup_cons] at hnd
      exact hnd
    have hic : indeg c.id = 1 := h1 c (List.mem_cons_self c cs)
    have hstep : processChildren (c :: cs) rest indeg =
        processChildren cs (rest ++ [c])
          (fun i2 => if i2 = c.id then indeg c.id - 1 else indeg i2) := by
      unfold processChildren
      rw [List.foldl_cons]
      congr 1
      show (if (if c.id = c.id then indeg c.id - 1 else indeg c.id) = 0 then
          (rest ++ [c], fun i2 => if i2 = c.id then indeg c.id - 1 else indeg i2)
        else
          (rest, fun i2 => if i2 = c.id then indeg c.id - 1 else indeg i2)) = _
      rw [if_pos rfl, hic]
      rw [if_pos (by decide : (1 : Int) - 1 = 0)]
    rw [hstep]
    rw [ih (rest ++ [c]) _ hnd2.2 (by
      intro x hx
      have hxc : x.id ≠ c.id := by
        intro he
        exact hnd2.1 (he ▸ List.mem_map.mpr ⟨x, hx, rfl⟩)
      rw [if_neg hxc]
      exact h1 x (List.mem_cons_of_mem c hx))]
    refine Prod.ext ?_ ?_
    · show rest ++ [c] ++ cs = rest ++ c :: cs
      rw [List.append_assoc]
      rfl
    · funext i2
      show (if i2 ∈ cs.map (·.id) then 0
            else if i2 = c.id then indeg c.id - 1 else indeg i2) =
           (if i2 ∈ (c :: cs).map (·.id) then 0 else indeg i2)
      by_cases hcs : i2 ∈ cs.map (·.id)
      · rw [if_pos hcs, if_pos (by
          rw [List.map_cons]
          exact List.mem_cons_of_mem _ hcs)]
      · rw [if_neg hcs]
        by_cases hcid : i2 = c.id
        · rw [if_pos hcid, hic]
          rw [if_pos (by
            rw [List.map_cons, hcid]
            exact List.mem_cons_self _ _)]
          decide
        · rw [if_neg hcid, if_neg (by
            rw [List.map_cons]
            intro hm
            rcases List.mem_cons.mp hm with h | h
            · exact hcid h
            · exact hcs h)]

/-- All structural invariants hold at the seeded state of the loop. -/
theorem loopInv_init (ordered : List FormDefinition)
    (hids : (ordered.map (·.id)).Nodup) :
    LoopInv ordered (initReady ordered) [] (indeg0 ordered) := by
  have hnodup : ordered.Nodup := hids.of_map
  refine ⟨?_, ?_, ?_, ?_, ?_, ?_, ?_, ?_, ?_⟩
  · intro c hc
    exact ((mem_initReady_iff ordered hids c).mp hc).1
  · intro c hc
    cases hc
  · show (initReady ordered).Nodup
    unfold initReady
    have hperm := List.perm_insertionSort keyLE
      (ordered.filter (fun fd => indeg0 ordered fd.id == 0))
    exact hperm.nodup_iff.mpr
      (List.Nodup.sublist (List.filter_sublist ordered) hnodup)
  · intro c hc
    cases hc
  · intro c hc p hp
    have hd := ((mem_initReady_iff ordered hids c).mp hc).2
    rw [parentOf_none_of_no_dep ordered c hd] at hp
    cases hp
  · exact List.Pairwise.nil
  · intro c hc hmem
    rcases hmem with h | h
    · cases h
    · have hd := ((mem_initReady_iff ordered hids c).mp h).2
      rw [indeg0_eq ordered hids c hc]
      exact (initIndeg_eq_zero c).mpr hd
  · intro c hc hacc hready
    rw [indeg0_eq ordered hids c hc]
    cases hd : c.depends_on_step_order with
    | none =>
      exact absurd ((mem_initReady_iff ordered hids c).mpr ⟨hc, hd⟩) hready
    | some dep =>
      unfold initIndeg
      rw [hd]
  · intro c hc hacc hready
    constructor
    · cases hd : c.depends_on_step_order with
      | none =>
        exact absurd ((mem_initReady_iff ordered hids c).mpr ⟨hc, hd⟩) hready
      | some dep => rfl
    · intro p _ hp
      cases hp

/-- Popping the head of the ready queue preserves the loop invariant:
its children are exactly the pending steps whose parent it is, they all
become ready, and the in-degree table zeroes them out. -/
theorem loopInv_step (ordered : List FormDefinition)
    (hids : (ordered.map (·.id)).Nodup)
    (current : FormDefinition) (rest acc : List FormDefinition)
    (indeg : Nat → Int)
    (inv : LoopInv ordered (current :: rest) acc indeg) :
    processChildren (childrenOf ordered current) rest indeg =
      (rest ++ childrenOf ordered current,
       fun i2 => if i2 ∈ (childrenOf ordered current).map (·.id) then 0
                 else indeg i2) ∧
    LoopInv ordered
      (List.insertionSort keyLE (rest ++ childrenOf ordered current))
      (acc ++ [current])
      (fun i2 => if i2 ∈ (childrenOf ordered current).map (·.id) then 0
                 else indeg i2) := by
  have hcur : current ∈ ordered := inv.subR current (List.mem_cons_self _ _)
  have hnodupO : ordered.Nodup := hids.of_map
  have hnd := inv.nodup
  rw [List.nodup_append] at hnd
  obtain ⟨hndacc, hndready, hdisj⟩ := hnd
  have hcuracc : current ∉ acc := fun h => hdisj h (List.mem_cons_self _ _)
  have hchild : ∀ c ∈ childrenOf ordered current,
      c ∈ ordered ∧ parentOf ordered c = some current ∧
      c ∉ acc ∧ c ∉ current :: rest ∧ indeg c.id = 1 := by
    intro c hcC
    obtain ⟨hcO, hpc⟩ := (mem_childrenOf ordered hids current hcur c).mp hcC
    have hnacc : c ∉ acc := by
      intro h
      exact hcuracc (inv.parentsAcc c h current hpc)
    have hnready : c ∉ current :: rest := by
      intro h
      exact hcuracc (inv.parentsReady c h current hpc)
    exact ⟨hcO, hpc, hnacc, hnready, inv.indegOut c hcO hnacc hnready⟩
  have hproc := processChildren_spec (childrenOf ordered current) rest indeg
    (childrenOf_ids_nodup ordered hids current)
    (fun c hc => (hchild c hc).2.2.2.2)
  refine ⟨hproc, ?_⟩
  have hndchildren : (childrenOf ordered current).Nodup :=
    (childrenOf_ids_nodup ordered hids current).of_map
  have hmemready2 : ∀ c : FormDefinition,
      c ∈ List.insertionSort keyLE (rest ++ childrenOf ordered current) ↔
        (c ∈ rest ∨ c ∈ childrenOf ordered current) := by
    intro c
    rw [List.mem_insertionSort, List.mem_append]
  have hidchild : ∀ c ∈ ordered,
      (c.id ∈ (childrenOf ordered current).map (·.id) ↔
        c ∈ childrenOf ordered current) := by
    intro c hcO
    constructor
    · intro h
      obtain ⟨c2, hc2, hc2id⟩ := List.mem_map.mp h
      have hc2O : c2 ∈ ordered := (hchild c2 hc2).1
      have he : c2 = c := id_inj ordered hids hc2O hcO hc2id
      exact he ▸ hc2
    · intro h
      exact List.mem_map.mpr ⟨c, h, rfl⟩
  refine ⟨?_, ?_, ?_, ?_, ?_, ?_, ?_, ?_, ?_⟩
  · intro c hc
    rcases (hmemready2 c).mp hc with h | h
    · exact inv.subR c (List.mem_cons_of_mem _ h)
    · exact (hchild c h).1
  · intro c hc
    rcases List.mem_append.mp hc with h | h
    · exact inv.subA c h
    · simp only [List.mem_singleton] at h
      exact h ▸ hcur
  · have hperm1 : List.Perm
        ((acc ++ [current]) ++
          List.insertionSort keyLE (rest ++ childrenOf ordered current))
        ((acc ++ [current]) ++ (rest ++ childrenOf ordered current)) :=
      List.Perm.append_left _ (List.perm_insertionSort _ _)
    have heq : (acc ++ [current]) ++ (rest ++ childrenOf ordered current) =
        (acc ++ current :: rest) ++ childrenOf ordered current := by
      simp [List.append_assoc]
    rw [heq] at hperm1
    refine hperm1.nodup_iff.mpr ?_
    rw [List.nodup_append]
    refine ⟨inv.nodup, hndchildren, ?_⟩
    intro a ha haC
    obtain ⟨_, _, hnacc, hnready, _⟩ := hchild a haC
    rcases List.mem_append.mp ha with h | h
    · exact hnacc h
    · exact hnready h
  · intro c hc p hp
    rcases List.mem_append.mp hc with h | h
    · exact List.mem_append.mpr (Or.inl (inv.parentsAcc c h p hp))
    · simp only [List.mem_singleton] at h
      subst h
      exact List.mem_append.mpr
        (Or.inl (inv.parentsReady c (List.mem_cons_self _ _) p hp))
  · intro c hc p hp
    rcases (hmemready2 c).mp hc with h | h
    · exact List.mem_append.mpr
        (Or.inl (inv.parentsReady c (List.mem_cons_of_mem _ h) p hp))
    · have hpc := (hchild c h).2.1
      rw [hp] at hpc
      have hpe : p = current := Option.some_inj.mp hpc
      subst hpe
      exact List.mem_append.mpr (Or.inr (List.mem_singleton_self _))
  · rw [List.pairwise_append]
    refine ⟨inv.noLater, List.pairwise_singleton _ _, ?_⟩
    intro a ha b hb
    simp only [List.mem_singleton] at hb
    intro hcontra
    rw [hb] at hcontra
    exact hcuracc (inv.parentsAcc a ha current hcontra)
  · intro c hcO hmem
    by_cases hcid : c.id ∈ (childrenOf ordered current).map (·.id)
    · rw [if_pos hcid]
    · rw [if_neg hcid]
      have hcnotC : c ∉ childrenOf ordered current :=
        fun h => hcid ((hidchild c hcO).mpr h)
      rcases hmem with h | h
      · rcases List.mem_append.mp h with h2 | h2
        · exact inv.indegIn c hcO (Or.inl h2)
        · simp only [List.mem_singleton] at h2
          subst h2
          exact inv.indegIn c hcO (Or.inr (List.mem_cons_self _ _))
      · rcases (hmemready2 c).mp h with h2 | h2
        · exact inv.indegIn c hcO (Or.inr (List.mem_cons_of_mem _ h2))
        · exact absurd h2 hcnotC
  · intro c hcO hacc2 hready2
    have hcneq : c ≠ current := by
      intro he
      exact hacc2 (List.mem_append.mpr (Or.inr (by
        rw [he]
        exact List.mem_singleton_self _)))
    have hnacc : c ∉ acc := fun h => hacc2 (List.mem_append.mpr (Or.inl h))
    have hnrest : c ∉ rest := fun h => hready2 ((hmemready2 c).mpr (Or.inl h))
    have hnchildren : c ∉ childrenOf ordered current :=
      fun h => hready2 ((hmemready2 c).mpr (Or.inr h))
    have hnready : c ∉ current :: rest := by
      intro h
      rcases List.mem_cons.mp h with h2 | h2
      · exact hcneq h2
      · exact hnrest h2
    rw [if_neg (fun h => hnchildren ((hidchild c hcO).mp h))]
    exact inv.indegOut c hcO hnacc hnready
  · intro c hcO hacc2 hready2
    have hcneq : c ≠ current := by
      intro he
      exact hacc2 (List.mem_append.mpr (Or.inr (by
        rw [he]
        exact List.mem_singleton_self _)))
    have hnacc : c ∉ acc := fun h => hacc2 (List.mem_append.mpr (Or.inl h))
    have hnrest : c ∉ rest := fun h => hready2 ((hmemready2 c).mpr (Or.inl h))
    have hnchildren : c ∉ childrenOf ordered current :=
      fun h => hready2 ((hmemready2 c).mpr (Or.inr h))
    have hnready : c ∉ current :: rest := by
      intro h
      rcases List.mem_cons.mp h with h2 | h2
      · exact hcneq h2
      · exact hnrest h2
    obtain ⟨hdep, hpnot⟩ := inv.pendingDep c hcO hnacc hnready
    refine ⟨hdep, ?_⟩
    intro p hp hpacc2
    rcases List.mem_append.mp hpacc2 with h | h
    · exact hpnot p hp h
    · simp only [List.mem_singleton] at h
      rw [h] at hp
      exact hnchildren
        ((mem_childrenOf ordered hids current hcur c).mpr ⟨hcO, hp⟩)

/-- Unfolding one iteration of the `while ready:` loop. -/
theorem kahnLoop_cons (childrenFn : FormDefinition → List FormDefinition)
    (fuel : Nat) (current : FormDefinition) (rest acc : List FormDefinition)
    (indeg : Nat → Int) :
    kahnLoop childrenFn (fuel + 1) (current :: rest) indeg acc =
      kahnLoop childrenFn fuel
        (List.insertionSort keyLE
          (processChildren (childrenFn current) rest indeg).1)
        (processChildren (childrenFn current) rest indeg).2
        (acc ++ [current]) := rfl

/-- Running the loop from any invariant state lands in an invariant
state, and with enough fuel the ready queue has fully drained. -/
theorem kahnLoop_run (ordered : List FormDefinition)
    (hids : (ordered.map (·.id)).Nodup) :
    ∀ (fuel : Nat) (ready acc : List FormDefinition) (indeg : Nat → Int),
      LoopInv ordered ready acc indeg →
      ∃ readyF indegF,
        LoopInv ordered readyF
          (kahnLoop (childrenOf ordered) fuel ready indeg acc) indegF ∧
        (ordered.length + 1 ≤ fuel + acc.length → readyF = []) := by
  intro fuel
  induction fuel with
  | zero =>
    intro ready acc indeg inv
    refine ⟨ready, indeg, inv, ?_⟩
    intro hfuel
    exfalso
    have hsp : (acc ++ ready).Subperm ordered :=
      List.subperm_of_subset inv.nodup (by
        intro x hx
        rcases List.mem_append.mp hx with h | h
        · exact inv.subA x h
        · exact inv.subR x h)
    have hle := hsp.length_le
    rw [List.length_append] at hle
    omega
  | succ f ih =>
    intro ready acc indeg inv
    cases ready with
    | nil => exact ⟨[], indeg, inv, fun _ => rfl⟩
    | cons current rest =>
      obtain ⟨hproc, inv2⟩ := loopInv_step ordered hids current rest acc indeg inv
      rw [kahnLoop_cons, hproc]
      obtain ⟨readyF, indegF, invF, hterm⟩ := ih _ _ _ inv2
      refine ⟨readyF, indegF, invF, ?_⟩
      intro hfuel
      apply hterm
      rw [List.length_append, List.length_singleton]
      omega

/-- Members of a parent-closed subset (a dependency cycle) are never
emitted by the loop: none of them can ever enter the ready queue. -/
theorem kahnLoop_miss (ordered : List FormDefinition)
    (hids : (ordered.map (·.id)).Nodup)
    (S : List FormDefinition)
    (hSclosed : ∀ c ∈ S, ∃ p ∈ S, parentOf ordered c = some p) :
    ∀ (fuel : Nat) (ready acc : List FormDefinition) (indeg : Nat → Int),
      LoopInv ordered ready acc indeg →
      (∀ s ∈ S, s ∉ ready) → (∀ s ∈ S, s ∉ acc) →
      ∀ s ∈ S, s ∉ kahnLoop (childrenOf ordered) fuel ready indeg acc := by
  intro fuel
  induction fuel with
  | zero => intro ready acc indeg _ _ hacc; exact hacc
  | succ f ih =>
    intro ready acc indeg inv hready hacc
    cases ready with
    | nil => exact hacc
    | cons current rest =>
      obtain ⟨hproc, inv2⟩ := loopInv_step ordered hids current rest acc indeg inv
      have hcur : current ∈ ordered := inv.subR current (List.mem_cons_self _ _)
      rw [kahnLoop_cons, hproc]
      apply ih _ _ _ inv2
      · intro s hs hmem
        rw [List.mem_insertionSort, List.mem_append] at hmem
        rcases hmem with h | h
        · exact hready s hs (List.mem_cons_of_mem _ h)
        · obtain ⟨_, hp⟩ := (mem_childrenOf ordered hids current hcur s).mp h
          obtain ⟨p, hpS, hps⟩ := hSclosed s hs
          rw [hp] at hps
          have he : current = p := Option.some_inj.mp hps
          apply hready p hpS
          rw [← he]
          exact List.mem_cons_self current rest
      · intro s hs hmem
        rcases List.mem_append.mp hmem with h | h
        · exact hacc s hs h
        · simp only [List.mem_singleton] at h
          apply hready s hs
          rw [h]
          exact List.mem_cons_self current rest

/-- When the queue has drained and the dependency graph is acyclic and
valid, every step has been emitted: no pending step can have minimal
rank, since its parent would be pending with a smaller rank. -/
theorem pending_empty (ordered accF : List FormDefinition) (indegF : Nat → Int)
    (hval : depsValid ordered = true) (hacyc : AcyclicRanked ordered)
    (inv : LoopInv ordered [] accF indegF) :
    ∀ c ∈ ordered, c ∈ accF := by
  obtain ⟨rank, hrank⟩ := hacyc
  have key : ∀ n, ∀ c ∈ ordered, rank c.id < n → c ∈ accF := by
    intro n
    induction n with
    | zero => intro c _ h; exact absurd h (Nat.not_lt_zero _)
    | succ m ih =>
      intro c hc hlt
      by_contra hnacc
      obtain ⟨hdep, hpnot⟩ := inv.pendingDep c hc hnacc (List.not_mem_nil c)
      obtain ⟨p, hp, _, hpO⟩ := parentOf_of_valid ordered hval c hc hdep
      have hr := hrank c hc p hp
      exact hpnot p hp (ih p hpO (by omega))
  intro c hc
  exact key (rank c.id + 1) c hc (Nat.lt_succ_self _)

/-- On a list of at most one step that passes the validity scan, no
step can have a dependency: its only possible parent would be itself. -/
theorem parentOf_none_of_short (ordered : List FormDefinition)
    (hlen : ordered.length ≤ 1) (hval : depsValid ordered = true)
    (c : FormDefinition) (hc : c ∈ ordered) : parentOf ordered c = none := by
  cases hd : c.depends_on_step_order with
  | none => exact parentOf_none_of_no_dep ordered c hd
  | some dep =>
    exfalso
    obtain ⟨p, hp, hpid, hpO⟩ :=
      parentOf_of_valid ordered hval c hc (by rw [hd]; rfl)
    apply hpid
    cases ordered with
    | nil => cases hc
    | cons a tl =>
      cases tl with
      | nil =>
        simp only [List.mem_singleton] at hc hpO
        rw [hc, hpO]
      | cons b tl2 =>
        simp only [List.length_cons] at hlen
        omega

/-- From the no-parent-later pairwise property, a child's parent sits at
a strictly earlier index of the emitted list. -/
theorem topo_index (l ordered : List FormDefinition)
    (hpw : l.Pairwise (fun a b => parentOf ordered a ≠ some b))
    (c : FormDefinition) (hc : c ∈ l) (p : FormDefinition)
    (hp : parentOf ordered c = some p) (hpl : p ∈ l) (hpc : p ≠ c) :
    ∃ i j : Fin l.length, i < j ∧ l.get i = p ∧ l.get j = c := by
  obtain ⟨j, hj⟩ := List.mem_iff_get.mp hc
  obtain ⟨i, hi⟩ := List.mem_iff_get.mp hpl
  have hij : i ≠ j := by
    intro he
    exact hpc (by rw [← hi, he, hj])
  rcases hij.lt_or_lt with h | h
  · exact ⟨i, j, h, hi, hj⟩
  · exfalso
    have hR := (List.pairwise_iff_get.mp hpw) j i h
    rw [hj, hi] at hR
    exact hR hp

/-- C2: for every set of form-definition steps with pairwise-distinct
record ids, (a) if the step orders are pairwise distinct, every
dependency reference resolves to an existing different step, and the
dependency graph is acyclic, then `_order_form_definitions` returns a
permutation of the input in which every step appears strictly after the
step it depends on (the result is a fixed function of the input, so
repeated calls agree); and (b) on every input with a duplicate step
order, an unresolvable or self-referential dependency, or a dependency
cycle, it instead returns the steps sorted ascending by step order with
ties broken by record id, and (being total) never raises. -/
theorem order_form_definitions_correct (form_defs : List FormDefinition)
    (hids : (form_defs.map (·.id)).Nodup) :
    (((sortByStepKey form_defs).map (·.step_order)).Nodup →
      depsValid (sortByStepKey form_defs) = true →
      AcyclicRanked (sortByStepKey form_defs) →
      List.Perm (order_form_definitions form_defs) form_defs ∧
      (∀ c ∈ order_form_definitions form_defs, ∀ p,
        parentOf (sortByStepKey form_defs) c = some p →
        ∃ i j : Fin (order_form_definitions form_defs).length,
          i < j ∧ (order_form_definitions form_defs).get i = p ∧
          (order_form_definitions form_defs).get j = c)) ∧
    ((¬ ((sortByStepKey form_defs).map (·.step_order)).Nodup ∨
      depsValid (sortByStepKey form_defs) = false ∨
      HasCycle (sortByStepKey form_defs)) →
      order_form_definitions form_defs = sortByStepKey form_defs ∧
      (order_form_definitions form_defs).Pairwise keyLE) := by
  have hpermO : List.Perm (sortByStepKey form_defs) form_defs :=
    List.perm_insertionSort keyLE form_defs
  have hidsO : ((sortByStepKey form_defs).map (·.id)).Nodup :=
    (hpermO.map (·.id)).nodup_iff.mpr hids
  have hunf : order_form_definitions form_defs =
      (if (sortByStepKey form_defs).length ≤ 1 then sortByStepKey form_defs
       else if ¬ ((sortByStepKey form_defs).map (·.step_order)).Nodup then
         sortByStepKey form_defs
       else if ¬ depsValid (sortByStepKey form_defs) then sortByStepKey form_defs
       else if (kahnResult (sortByStepKey form_defs)).length ≠
           (sortByStepKey form_defs).length then sortByStepKey form_defs
       else kahnResult (sortByStepKey form_defs)) := rfl
  constructor
  · intro hnodupSO hval hacyc
    by_cases hlen : (sortByStepKey form_defs).length ≤ 1
    · rw [hunf, if_pos hlen]
      refine ⟨hpermO, ?_⟩
      intro c hc p hp
      rw [parentOf_none_of_short (sortByStepKey form_defs) hlen hval c hc] at hp
      cases hp
    · obtain ⟨readyF, indegF, invF, hterm⟩ :=
        kahnLoop_run (sortByStepKey form_defs) hidsO
          (2 * (sortByStepKey form_defs).length + 1)
          (initReady (sortByStepKey form_defs)) []
          (indeg0 (sortByStepKey form_defs)) (loopInv_init _ hidsO)
      have hreadyF : readyF = [] := hterm (by
        simp only [List.length_nil]
        omega)
      subst hreadyF
      have hkr : kahnLoop (childrenOf (sortByStepKey form_defs))
          (2 * (sortByStepKey form_defs).length + 1)
          (initReady (sortByStepKey form_defs))
          (indeg0 (sortByStepKey form_defs)) [] =
          kahnResult (sortByStepKey form_defs) := rfl
      rw [hkr] at invF
      have hcomplete : ∀ c ∈ sortByStepKey form_defs,
          c ∈ kahnResult (sortByStepKey form_defs) :=
        pending_empty _ _ _ hval hacyc invF
      have haccnd : (kahnResult (sortByStepKey form_defs)).Nodup := by
        have hn := invF.nodup
        simpa using hn
      have hsp1 : (kahnResult (sortByStepKey form_defs)).Subperm
          (sortByStepKey form_defs) :=
        List.subperm_of_subset haccnd (fun x hx => invF.subA x hx)
      have hsp2 : (sortByStepKey form_defs).Subperm
          (kahnResult (sortByStepKey form_defs)) :=
        List.subperm_of_subset hidsO.of_map hcomplete
      have hperm2 : List.Perm (kahnResult (sortByStepKey form_defs))
          (sortByStepKey form_defs) :=
        hsp1.antisymm hsp2
      have hres : order_form_definitions form_defs =
          kahnResult (sortByStepKey form_defs) := by
        rw [hunf, if_neg hlen, if_neg (not_not.mpr hnodupSO),
          if_neg (not_not.mpr hval),
          if_neg (not_not.mpr hperm2.length_eq)]
      rw [hres]
      refine ⟨hperm2.trans hpermO, ?_⟩
      intro c hc p hp
      have hcO : c ∈ sortByStepKey form_defs := invF.subA c hc
      have hpacc : p ∈ kahnResult (sortByStepKey form_defs) :=
        invF.parentsAcc c hc p hp
      have hdep : c.depends_on_step_order.isSome = true :=
        parentOf_isSome_dep _ c p hp
      obtain ⟨p2, hp2, hp2id, _⟩ := parentOf_of_valid _ hval c hcO hdep
      have hpe : p2 = p := Option.some_inj.mp (hp2.symm.trans hp)
      have hpc : p ≠ c := by
        intro he
        exact hp2id (by rw [hpe, he])
      exact topo_index (kahnResult (sortByStepKey form_defs))
        (sortByStepKey form_defs) invF.noLater c hc p hp hpacc hpc
  · intro hfb
    by_cases hlen : (sortByStepKey form_defs).length ≤ 1
    · refine ⟨by rw [hunf, if_pos hlen], ?_⟩
      rw [hunf, if_pos hlen]
      exact List.sorted_insertionSort keyLE form_defs
    · have hres : order_form_definitions form_defs = sortByStepKey form_defs := by
        by_cases hdup : ((sortByStepKey form_defs).map (·.step_order)).Nodup
        · by_cases hvb : depsValid (sortByStepKey form_defs) = true
          · have hcyc : HasCycle (sortByStepKey form_defs) := by
              rcases hfb with h | h | h
              · exact absurd hdup h
              · rw [hvb] at h; cases h
              · exact h
            obtain ⟨S, hSne, hSsub, hSclosed⟩ := hcyc
            obtain ⟨readyF, indegF, invF, _⟩ :=
              kahnLoop_run (sortByStepKey form_defs) hidsO
                (2 * (sortByStepKey form_defs).length + 1)
                (initReady (sortByStepKey form_defs)) []
                (indeg0 (sortByStepKey form_defs)) (loopInv_init _ hidsO)
            have hkr : kahnLoop (childrenOf (sortByStepKey form_defs))
                (2 * (sortByStepKey form_defs).length + 1)
                (initReady (sortByStepKey form_defs))
                (indeg0 (sortByStepKey form_defs)) [] =
                kahnResult (sortByStepKey form_defs) := rfl
            rw [hkr] at invF
            have hready0 : ∀ s ∈ S, s ∉ initReady (sortByStepKey form_defs) := by
              intro s hs hmem
              have hd := ((mem_initReady_iff _ hidsO s).mp hmem).2
              obtain ⟨p, _, hps⟩ := hSclosed s hs
              rw [parentOf_none_of_no_dep _ s hd] at hps
              cases hps
            have hmiss := kahnLoop_miss (sortByStepKey form_defs) hidsO S
              hSclosed (2 * (sortByStepKey form_defs).length + 1)
              (initReady (sortByStepKey form_defs)) []
              (indeg0 (sortByStepKey form_defs)) (loopInv_init _ hidsO)
              hready0 (fun s _ => List.not_mem_nil s)
            rw [hkr] at hmiss
            obtain ⟨s0, hs0⟩ := List.exists_mem_of_ne_nil S hSne
            have hs0O : s0 ∈ sortByStepKey form_defs := hSsub s0 hs0
            have hs0miss := hmiss s0 hs0
            have haccnd : (kahnResult (sortByStepKey form_defs)).Nodup :=
              List.Nodup.sublist
                (List.sublist_append_left _ readyF) invF.nodup
            have hsub : ∀ x ∈ kahnResult (sortByStepKey form_defs),
                x ∈ (sortByStepKey form_defs).erase s0 := by
              intro x hx
              refine (List.mem_erase_of_ne ?_).mpr (invF.subA x hx)
              intro he
              rw [he] at hx
              exact hs0miss hx
            have hle := (List.subperm_of_subset haccnd hsub).length_le
            rw [List.length_erase_of_mem hs0O] at hle
            have hne : (kahnResult (sortByStepKey form_defs)).length ≠
                (sortByStepKey form_defs).length := by
              omega
            rw [hunf, if_neg hlen, if_neg (not_not.mpr hdup),
              if_neg (not_not.mpr hvb), if_pos hne]
          · rw [hunf, if_neg hlen, if_neg (not_not.mpr hdup), if_pos hvb]
        · rw [hunf, if_neg hlen, if_pos hdup]
      refine ⟨hres, ?_⟩
      rw [hres]
      exact List.sorted_insertionSort keyLE form_defs

/-- C2 witness: on the concrete two-step input `c2defs` (distinct ids,
distinct step orders, one valid acyclic dependency) the resolver
returns a permutation of the input. -/
theorem order_form_definitions_correct_witness :
    (c2defs.map (·.id)).Nodup ∧
      List.Perm (order_form_definitions c2defs) c2defs := by
  have hacyc : AcyclicRanked (sortByStepKey c2defs) := by
    refine ⟨fun n => n, ?_⟩
    intro c hc p hp
    have hs : sortByStepKey c2defs = [c2A, c2B] := by decide
    rw [hs] at hc hp
    rcases List.mem_cons.mp hc with h | h
    · subst h
      have hA : parentOf [c2A, c2B] c2A = none := by decide
      rw [hA] at hp
      cases hp
    · simp only [List.mem_singleton] at h
      subst h
      have hB : parentOf [c2A, c2B] c2B = some c2A := by decide
      rw [hB] at hp
      have hpe : p = c2A := (Option.some_inj.mp hp).symm
      subst hpe
      decide
  exact ⟨by decide,
    ((order_form_definitions_correct c2defs (by decide)).1
      (by decide) (by decide) hacyc).1⟩

end Formbot
